import Mathlib

/-!
Verification development for the `sleep-shiyi` sleep-tracking plugin
(`src/index.ts`).  The stateful middleware code is shallowly embedded:
the two database tables become lists in a `DB` record, wall-clock
instants become integer milliseconds (UTC), the empty-string sentinel
used by the code for an open session's `wakeTime` becomes `none`, and
each middleware is a pure function from the pre-state to a result plus
the list of storage writes it issues (all reads in the source happen
before all writes, so emitting writes against the pre-state is faithful).
-/

namespace Sleep

/-- Milliseconds in one day (the `24 * 60 * 60 * 1000` constant of
`calcSleepDuration` in `src/index.ts`). -/
def dayMs : Int := 86400000

/-- UTC hour (0–23) of an instant given in epoch milliseconds; models
`new Date(ms).getHours()` with the server clock taken as UTC. -/
def hourOf (ms : Int) : Int := (ms.fdiv 3600000) % 24

/-- UTC calendar-day index of an instant in epoch milliseconds; models
`dayjs(now).format('YYYY-MM-DD')` (each integer stands for one date
string; the string order `YYYY-MM-DD` is the numeric order). -/
def dayOf (ms : Int) : Int := ms.fdiv 86400000

/-- The `time` part of the plugin `Config` in `src/index.ts`: the
morning and evening hour windows. -/
structure Config where
  morningStart : Int
  morningEnd : Int
  eveningStart : Int
  eveningEnd : Int
deriving DecidableEq

/-- Which window `isInSpan` is asked about (`'morning' | 'evening'`). -/
inductive SpanType
  | morning
  | evening
deriving DecidableEq

/-- `isInSpan` from `src/index.ts` (lines 84–88): destructures the
configured `[start, end]` pair for the requested window and returns
`start <= end ? (hour >= start && hour <= end) : (hour >= start || hour <= end)`. -/
def isInSpan (hour : Int) (cfg : Config) (ty : SpanType) : Bool :=
  let start := match ty with
    | .morning => cfg.morningStart
    | .evening => cfg.eveningStart
  let stop := match ty with
    | .morning => cfg.morningEnd
    | .evening => cfg.eveningEnd
  if start ≤ stop then decide (hour ≥ start) && decide (hour ≤ stop)
  else decide (hour ≥ start) || decide (hour ≤ stop)

/-- JavaScript `Math.round(num / den)` for integer `num` and positive
integer `den`: `Math.round x = ⌊x + 1/2⌋` (halves round toward `+∞`),
and `⌊num/den + 1/2⌋ = ⌊(2*num + den) / (2*den)⌋`. -/
def jsRoundDiv (num den : Int) : Int := (2 * num + den).fdiv (2 * den)

/-- `calcSleepDuration` from `src/index.ts` (lines 100–105): millisecond
difference of the two instants, except that when the wake instant is
numerically earlier than the sleep instant the code adds 24 hours to the
wake side; the result is `Math.round`ed to minutes. -/
def calcSleepDuration (sleepMs wakeMs : Int) : Int :=
  let durationMs := if wakeMs ≥ sleepMs then wakeMs - sleepMs else wakeMs + dayMs - sleepMs
  jsRoundDiv durationMs 60000

/-- One row of the `sleep_record` table (`SleepRecord` in
`src/index.ts`).  `wakeTime = none` models the empty-string sentinel the
code stores while the session is open; `date` is the calendar day the
session was opened. -/
structure SleepRecord where
  id : Nat
  uid : Nat
  sleepTime : Int
  wakeTime : Option Int
  duration : Option Int
  date : Int
deriving DecidableEq

/-- The sleep-related fields the plugin adds to the `user` table
(`sleepTotal`, `sleepCount`, `lastSleepId`), keyed by `id`. -/
structure UserRow where
  id : Nat
  sleepTotal : Int
  sleepCount : Nat
  lastSleepId : Option Nat
deriving DecidableEq

/-- The storage state: the two tables plus the auto-increment counter
for `sleep_record.id`. -/
structure DB where
  users : List UserRow
  records : List SleepRecord
  nextId : Nat
deriving DecidableEq

def emptyDB : DB := ⟨[], [], 0⟩

/-- Update applied to a `sleep_record` row by the morning middleware's
`database.set(sleepTableName, { id }, { wakeTime, duration })`. -/
def closeRecFn (rid : Nat) (wakeMs dur : Int) (r : SleepRecord) : SleepRecord :=
  if r.id = rid then { r with wakeTime := some wakeMs, duration := some dur } else r

/-- Update applied to a `user` row by the morning middleware's
`database.set('user', { id }, { sleepTotal, lastSleepId: null })`. -/
def closeUserFn (uid : Nat) (newTotal : Int) (u : UserRow) : UserRow :=
  if u.id = uid then { u with sleepTotal := newTotal, lastSleepId := none } else u

/-- Update applied to a `user` row inside the evening middleware's
transaction: `tx.set('user', { id }, { lastSleepId: record.id,
sleepCount: user.sleepCount + 1 })`. -/
def startUserFn (uid rid : Nat) (prevCount : Nat) (u : UserRow) : UserRow :=
  if u.id = uid then { u with lastSleepId := some rid, sleepCount := prevCount + 1 } else u

/-- A primitive storage write issued by a middleware.  `eveningTransact`
is the single `ctx.database.transact` block of the evening middleware:
it creates the session row and updates the user row as one unit. -/
inductive Write
  | createUser (uid : Nat)
  | eveningTransact (uid : Nat) (nowMs today : Int) (prevCount : Nat)
  | setRecordClose (rid : Nat) (wakeMs dur : Int)
  | setUserClose (uid : Nat) (newTotal : Int)
deriving DecidableEq

/-- Apply one write to the storage state. -/
def applyWrite (db : DB) : Write → DB
  | .createUser uid => { db with users := db.users ++ [⟨uid, 0, 0, none⟩] }
  | .eveningTransact uid nowMs today prevCount =>
      { users := db.users.map (startUserFn uid db.nextId prevCount)
        records := db.records ++ [⟨db.nextId, uid, nowMs, none, none, today⟩]
        nextId := db.nextId + 1 }
  | .setRecordClose rid wakeMs dur =>
      { db with records := db.records.map (closeRecFn rid wakeMs dur) }
  | .setUserClose uid newTotal =>
      { db with users := db.users.map (closeUserFn uid newTotal) }

def applyWrites (db : DB) (ws : List Write) : DB := ws.foldl applyWrite db

/-- The states visible during a sequence of writes: the initial state
and the state after each prefix of the writes. -/
def writeStates (db : DB) (ws : List Write) : List DB := ws.scanl applyWrite db

/-- A write sequence is atomic when no state other than the initial and
the final one is visible while it runs. -/
def atomicRun (db : DB) (ws : List Write) : Prop :=
  ∀ s ∈ writeStates db ws, s = db ∨ s = applyWrites db ws

instance (db : DB) (ws : List Write) : Decidable (atomicRun db ws) := by
  unfold atomicRun; infer_instance

/-- Outcome of the evening (sleep-start) middleware, keyword gating
aside: not in the evening window; duplicate same-day open session
(carrying the original `sleepTime`); or a new session created (carrying
`now` and the new same-day count used for the escalation message). -/
inductive EveningResult
  | notApplicable
  | repeatToday (sleepMs : Int)
  | created (nowMs : Int) (newCount : Nat)
deriving DecidableEq

/-- The evening middleware of `src/index.ts` (lines 223–306), after the
keyword match, as a pure function of the pre-state: the hour-window
check, the user fetch (`users[0] || { sleepCount: 0 }`) with creation
when absent, the same-day record count, the same-day unfinished-record
check, and on success the single transaction creating the session row
and updating the user row. -/
def eveningWrites (cfg : Config) (db : DB) (uid : Nat) (now : Int) :
    EveningResult × List Write :=
  if isInSpan (hourOf now) cfg .evening = false then (.notApplicable, [])
  else
    let users := db.users.filter (fun u => u.id == uid)
    let createWs : List Write := if users.isEmpty then [.createUser uid] else []
    let prevCount : Nat := ((users.head?).map (fun u => u.sleepCount)).getD 0
    let today := dayOf now
    let todayRecords := db.records.filter (fun r => r.uid == uid && r.date == today)
    let newCount := todayRecords.length + 1
    let unfinished := db.records.filter
      (fun r => r.uid == uid && r.date == today && r.wakeTime.isNone)
    match unfinished.head? with
    | some r => (.repeatToday r.sleepTime, createWs)
    | none => (.created now newCount, createWs ++ [.eveningTransact uid now today prevCount])

/-- Outcome of the morning (sleep-end) middleware, keyword gating aside. -/
inductive MorningResult
  | notApplicable
  | noUser
  | noUnfinished
  | closed (sleepMs wakeMs dur : Int)
deriving DecidableEq

/-- `users.filter(...)[0]` for `database.get('user', { id: uid })`. -/
def findUser (db : DB) (uid : Nat) : Option UserRow :=
  (db.users.filter (fun u => u.id == uid)).head?

/-- Fold step realising `sort: { sleepTime: 'desc' }, limit: 1`: keep
the record with the largest `sleepTime`. -/
def pickLatest (acc : Option SleepRecord) (r : SleepRecord) : Option SleepRecord :=
  match acc with
  | none => some r
  | some a => if r.sleepTime > a.sleepTime then some r else some a

/-- The morning middleware's query (lines 340–345): the user's records
with the empty-string `wakeTime` sentinel, sorted by `sleepTime`
descending, limited to one. -/
def latestOpen (db : DB) (uid : Nat) : Option SleepRecord :=
  (db.records.filter (fun r => r.uid == uid && r.wakeTime.isNone)).foldl pickLatest none

/-- The morning middleware of `src/index.ts` (lines 309–393), after the
keyword match: hour-window check, user lookup (absent → error return),
latest-unfinished-record query, then two separate updates — close the
record, then bump the user's `sleepTotal` and clear `lastSleepId`.
(The `!sleepRecord.sleepTime` corruption guard is vacuous here because
`sleepTime` is total in the model.) -/
def morningWrites (cfg : Config) (db : DB) (uid : Nat) (now : Int) :
    MorningResult × List Write :=
  if isInSpan (hourOf now) cfg .morning = false then (.notApplicable, [])
  else
    match findUser db uid with
    | none => (.noUser, [])
    | some user =>
      match latestOpen db uid with
      | none => (.noUnfinished, [])
      | some r =>
        let d := calcSleepDuration r.sleepTime now
        (.closed r.sleepTime now d,
          [.setRecordClose r.id now d, .setUserClose uid (user.sleepTotal + d)])

/-- An inbound state-changing event: a sleep-start ("晚安") or a
sleep-end ("早安") message from a user at an instant. -/
inductive Op
  | sleep (uid : Nat) (now : Int)
  | wake (uid : Nat) (now : Int)
deriving DecidableEq

/-- Run one event against the storage state. -/
def runOp (cfg : Config) (db : DB) : Op → DB
  | .sleep uid now => applyWrites db (eveningWrites cfg db uid now).2
  | .wake uid now => applyWrites db (morningWrites cfg db uid now).2

/-- Run a sequence of events from the empty storage state. -/
def runOps (cfg : Config) (ops : List Op) : DB := ops.foldl (runOp cfg) emptyDB

/-- The default window configuration of the plugin schema:
morning 6–12, evening 21–3 (crossing midnight). -/
def defaultConfig : Config := ⟨6, 12, 21, 3⟩

/-- Number of open sessions (`wakeTime` unset) a user owns. -/
def openCount (db : DB) (uid : Nat) : Nat :=
  (db.records.filter (fun r => r.uid == uid && r.wakeTime.isNone)).length

/-- Number of open sessions a user owns that were opened on a given
calendar day (the set the evening middleware's duplicate check sees). -/
def openDayCount (rs : List SleepRecord) (uid : Nat) (d : Int) : Nat :=
  (rs.filter (fun r => r.uid == uid && r.date == d && r.wakeTime.isNone)).length

/-- Sum of the recorded `duration`s over a user's sessions (only closed
sessions carry one). -/
def closedSum (rs : List SleepRecord) (uid : Nat) : Int :=
  ((rs.filter (fun r => r.uid == uid)).filterMap (fun r => r.duration)).sum

/-- Number of sessions (open or closed) a user owns. -/
def sessionCount (rs : List SleepRecord) (uid : Nat) : Nat :=
  (rs.filter (fun r => r.uid == uid)).length

/-- Number of closed sessions (`wakeTime` set) a user owns. -/
def closedCount (db : DB) (uid : Nat) : Nat :=
  (db.records.filter (fun r => r.uid == uid && !r.wakeTime.isNone)).length

/-- One leaderboard accumulator cell `userStats[uid]` of the rank
middleware: summed minutes and session count (the display name is
presentation-only and omitted). -/
structure RankStat where
  uid : Nat
  total : Int
  count : Nat
deriving DecidableEq

/-- One `records.forEach` step of the rank middleware:
`userStats[uid].total += record.duration!; userStats[uid].count += 1`,
creating the cell on first sight.  A JavaScript object whose keys are
array indices (the numeric `uid`s) enumerates `Object.values` in
ascending numeric key order, so the accumulator is an association list
kept sorted by ascending `uid`. -/
def bumpStat (r : SleepRecord) : List RankStat → List RankStat
  | [] => [⟨r.uid, r.duration.getD 0, 1⟩]
  | s :: ss =>
      if r.uid < s.uid then ⟨r.uid, r.duration.getD 0, 1⟩ :: s :: ss
      else if r.uid = s.uid then
        { s with total := s.total + r.duration.getD 0, count := s.count + 1 } :: ss
      else s :: bumpStat r ss

/-- The full `records.forEach(...)` accumulation (lines 438–445). -/
def buildStats (rs : List SleepRecord) : List RankStat :=
  rs.foldl (fun acc r => bumpStat r acc) []

/-- Stable insertion: `x` is placed before the first element that need
not stay in front of it (`keep x y = true` means `y` stays before `x`). -/
def insertStable {α : Type} (keep : α → α → Bool) (x : α) : List α → List α
  | [] => [x]
  | y :: ys => if keep x y then y :: insertStable keep x ys else x :: y :: ys

/-- Stable insertion sort; the observable behaviour of the ECMAScript
(stable since ES2019) `Array.prototype.sort`. -/
def stableSort {α : Type} (keep : α → α → Bool) : List α → List α
  | [] => []
  | x :: xs => insertStable keep x (stableSort keep xs)

/-- `.sort((a, b) => b.total - a.total)` (line 449): descending by
summed duration, stable. -/
def sortByTotalDesc (l : List RankStat) : List RankStat :=
  stableSort (fun x y => decide (x.total < y.total)) l

/-- The rank middleware's record query (lines 424–430): completed
records (`duration` non-null) with `date` in `[startDate, endDate]`. -/
def inRangeClosed (db : DB) (startDate endDate : Int) : List SleepRecord :=
  db.records.filter (fun r =>
    !r.duration.isNone && decide (startDate ≤ r.date) && decide (r.date ≤ endDate))

/-- The rank middleware (lines 396–467) after argument parsing: `none`
is the `emptyRecord` early return; otherwise group by user, sort
descending by total, truncate to `top` (`.slice(0, top)`). -/
def rankQuery (db : DB) (startDate endDate : Int) (top : Nat) :
    Option (List RankStat) :=
  let records := inRangeClosed db startDate endDate
  if records.isEmpty then none
  else some ((sortByTotalDesc (buildStats records)).take top)

/-- The order the sorted leaderboard satisfies: strictly larger total
first, ties by strictly ascending uid. -/
def lexBefore (a b : RankStat) : Prop :=
  b.total < a.total ∨ (a.total = b.total ∧ a.uid < b.uid)

instance : DecidableRel lexBefore := fun a b => by
  unfold lexBefore; infer_instance

/-- Sum of `duration.getD 0` over a user's records (`record.duration!`
with the non-null assertion of the rank middleware). -/
def durSum (rs : List SleepRecord) (uid : Nat) : Int :=
  ((rs.filter (fun r => r.uid == uid)).map (fun r => r.duration.getD 0)).sum

/-- Per-uid total over a stat list (used to state what `buildStats`
accumulates). -/
def statTotal (l : List RankStat) (uid : Nat) : Int :=
  ((l.filter (fun s => s.uid == uid)).map (fun s => s.total)).sum

/-- Per-uid count over a stat list. -/
def statCount (l : List RankStat) (uid : Nat) : Nat :=
  ((l.filter (fun s => s.uid == uid)).map (fun s => s.count)).sum

/-- JavaScript truthiness of `record.duration`: `null`/`undefined` and
`0` are falsy. -/
def truthyDuration (d : Option Int) : Bool :=
  match d with
  | none => false
  | some v => v != 0

/-- The personal-history middleware's record query (lines 482–488):
the user's records with `date` in range. -/
def inRangeFor (db : DB) (uid : Nat) (startDate endDate : Int) : List SleepRecord :=
  db.records.filter (fun r =>
    r.uid == uid && decide (startDate ≤ r.date) && decide (r.date ≤ endDate))

/-- `sort: { date: 'desc' }`: stable descending sort by date. -/
def sortByDateDesc (l : List SleepRecord) : List SleepRecord :=
  stableSort (fun x y => decide (x.date < y.date)) l

/-- Result payload of the personal-history middleware: the listed
records and, when at least one has a truthy `duration`, the aggregate
line `(Math.round(totalDuration / completedCount), completedCount)`. -/
structure HistoryData where
  entries : List SleepRecord
  aggregate : Option (Int × Nat)
deriving DecidableEq

/-- The personal-history middleware (lines 470–526): `none` is the
`emptyRecord` early return; the aggregate averages the records whose
`duration` is truthy (`if (record.duration)`), so a closed session with
`duration = 0` is skipped like an unfinished one. -/
def personalHistory (db : DB) (uid : Nat) (startDate endDate : Int) :
    Option HistoryData :=
  let records := sortByDateDesc (inRangeFor db uid startDate endDate)
  if records.isEmpty then none
  else
    let completed := records.filter (fun r => truthyDuration r.duration)
    let totalDuration := (completed.map (fun r => r.duration.getD 0)).sum
    some ⟨records,
      if completed.length = 0 then none
      else some (jsRoundDiv totalDuration (completed.length : Int), completed.length)⟩

/-- Demonstration trace for the leaderboard scenario: user 1 sleeps
twice for 300 minutes (01:00→06:00 on two days), user 2 once for 540
minutes (23:00→08:00), all under the default windows. -/
def c8demo : DB :=
  runOps defaultConfig [.sleep 1 3600000, .wake 1 21600000, .sleep 2 82800000,
    .sleep 1 90000000, .wake 1 108000000, .wake 2 115200000]

/-- Invariants of the storage state preserved by both middlewares. -/
structure Inv (db : DB) : Prop where
  usersNodup : (db.users.map (fun u => u.id)).Nodup
  recsNodup : (db.records.map (fun r => r.id)).Nodup
  idsBound : ∀ r ∈ db.records, r.id < db.nextId
  recUser : ∀ r ∈ db.records, ∃ u ∈ db.users, u.id = r.uid
  durIffWake : ∀ r ∈ db.records, (r.wakeTime = none ↔ r.duration = none)
  openDay : ∀ uid d, openDayCount db.records uid d ≤ 1
  totalEq : ∀ u ∈ db.users, u.sleepTotal = closedSum db.records u.id
  countEq : ∀ u ∈ db.users, u.sleepCount = sessionCount db.records u.id

theorem inv_empty : Inv emptyDB := by
  constructor <;> simp [emptyDB, openDayCount, closedSum, sessionCount]

/-! ### Basic facts about the row-update functions -/

theorem closeRecFn_id (rid : Nat) (w d : Int) (r : SleepRecord) :
    (closeRecFn rid w d r).id = r.id := by
  unfold closeRecFn; split <;> rfl

theorem closeRecFn_uid (rid : Nat) (w d : Int) (r : SleepRecord) :
    (closeRecFn rid w d r).uid = r.uid := by
  unfold closeRecFn; split <;> rfl

theorem closeRecFn_of_ne (rid : Nat) (w d : Int) (r : SleepRecord) (h : r.id ≠ rid) :
    closeRecFn rid w d r = r := by
  unfold closeRecFn; split
  · exact absurd ‹r.id = rid› h
  · rfl

theorem closeUserFn_id (uid : Nat) (t : Int) (u : UserRow) :
    (closeUserFn uid t u).id = u.id := by
  unfold closeUserFn; split <;> rfl

theorem closeUserFn_count (uid : Nat) (t : Int) (u : UserRow) :
    (closeUserFn uid t u).sleepCount = u.sleepCount := by
  unfold closeUserFn; split <;> rfl

theorem startUserFn_id (uid rid pc : Nat) (u : UserRow) :
    (startUserFn uid rid pc u).id = u.id := by
  unfold startUserFn; split <;> rfl

theorem startUserFn_total (uid rid pc : Nat) (u : UserRow) :
    (startUserFn uid rid pc u).sleepTotal = u.sleepTotal := by
  unfold startUserFn; split <;> rfl

/-! ### Aggregates over appended and updated record lists -/

theorem openDayCount_append (a b : List SleepRecord) (uid : Nat) (d : Int) :
    openDayCount (a ++ b) uid d = openDayCount a uid d + openDayCount b uid d := by
  simp [openDayCount, List.filter_append]

theorem sessionCount_append (a b : List SleepRecord) (uid : Nat) :
    sessionCount (a ++ b) uid = sessionCount a uid + sessionCount b uid := by
  simp [sessionCount, List.filter_append]

theorem closedSum_append (a b : List SleepRecord) (uid : Nat) :
    closedSum (a ++ b) uid = closedSum a uid + closedSum b uid := by
  simp [closedSum, List.filter_append, List.filterMap_append]

theorem closedSum_cons (r : SleepRecord) (l : List SleepRecord) (uid : Nat) :
    closedSum (r :: l) uid =
      (if r.uid = uid then r.duration.getD 0 else 0) + closedSum l uid := by
  by_cases h : r.uid = uid
  · cases hd : r.duration <;>
      simp [closedSum, List.filter_cons, h, List.filterMap_cons, hd]
  · simp [closedSum, List.filter_cons, h]

theorem closedSum_single_open (r : SleepRecord) (uid : Nat) (h : r.duration = none) :
    closedSum [r] uid = 0 := by
  by_cases hu : r.uid = uid <;> simp [closedSum, List.filter_cons, hu, List.filterMap_cons, h]

/-- A length-only comparison: filtering a mapped list is dominated by
filtering the original when the map can only turn the predicate off. -/
theorem length_filter_map_le {α : Type} (l : List α) (f : α → α) (p : α → Bool)
    (h : ∀ a ∈ l, p (f a) = true → p a = true) :
    ((l.map f).filter p).length ≤ (l.filter p).length := by
  induction l with
  | nil => simp
  | cons a l ih =>
    have ihl := ih (fun x hx => h x (List.mem_cons_of_mem a hx))
    by_cases hfa : p (f a) = true
    · have hpa := h a (List.mem_cons_self a l) hfa
      simp [List.filter_cons, hfa, hpa]
      omega
    · by_cases hpa : p a = true
      · simp [List.filter_cons, Bool.of_not_eq_true hfa, hpa, List.length_cons]
        omega
      · simp [List.filter_cons, Bool.of_not_eq_true hfa, Bool.of_not_eq_true hpa]
        exact ihl

/-- Filtering a mapped list when the map preserves the predicate keeps
the length. -/
theorem length_filter_map_eq {α : Type} (l : List α) (f : α → α) (p : α → Bool)
    (h : ∀ a ∈ l, p (f a) = p a) :
    ((l.map f).filter p).length = (l.filter p).length := by
  induction l with
  | nil => simp
  | cons a l ih =>
    have ihl := ih (fun x hx => h x (List.mem_cons_of_mem a hx))
    have ha := h a (List.mem_cons_self a l)
    by_cases hpa : p a = true
    · simp [List.filter_cons, hpa, ha ▸ hpa, ihl]
    · have hpa' : p a = false := Bool.of_not_eq_true hpa
      simp [List.filter_cons, hpa', ha.trans hpa', ihl]

theorem sessionCount_map_close (l : List SleepRecord) (rid : Nat) (w d : Int) (uid : Nat) :
    sessionCount (l.map (closeRecFn rid w d)) uid = sessionCount l uid := by
  unfold sessionCount
  exact length_filter_map_eq l _ _ (fun a _ => by rw [closeRecFn_uid])

theorem openDayCount_map_close_le (l : List SleepRecord) (rid : Nat) (w dv : Int)
    (uid : Nat) (d : Int) :
    openDayCount (l.map (closeRecFn rid w dv)) uid d ≤ openDayCount l uid d := by
  unfold openDayCount
  apply length_filter_map_le
  intro a _ hpa
  by_cases hid : a.id = rid
  · exfalso
    simp [closeRecFn, hid] at hpa
  · rwa [closeRecFn_of_ne rid w dv a hid] at hpa

/-- Closing a record that does not belong to `uid` leaves `uid`'s
duration sum unchanged. -/
theorem closedSum_map_close_other (l : List SleepRecord) (rid : Nat) (w d : Int) (uid : Nat)
    (h : ∀ a ∈ l, a.id = rid → a.uid ≠ uid) :
    closedSum (l.map (closeRecFn rid w d)) uid = closedSum l uid := by
  induction l with
  | nil => simp [closedSum]
  | cons a l ih =>
    have ihl := ih (fun x hx => h x (List.mem_cons_of_mem a hx))
    rw [List.map_cons, closedSum_cons, closedSum_cons, ihl]
    by_cases hid : a.id = rid
    · have hne := h a (List.mem_cons_self a l) hid
      rw [closeRecFn_uid]
      simp [hne]
    · rw [closeRecFn_of_ne rid w d a hid]

/-- Closing `uid`'s open record `r0` (which carried no duration) adds
exactly the new duration to `uid`'s sum; needs unique record ids. -/
theorem closedSum_map_close_self (l : List SleepRecord) (r0 : SleepRecord) (w d : Int)
    (uid : Nat) (hnd : (l.map (fun r => r.id)).Nodup) (hmem : r0 ∈ l) (huid : r0.uid = uid)
    (hdur : r0.duration = none) :
    closedSum (l.map (closeRecFn r0.id w d)) uid = closedSum l uid + d := by
  induction l with
  | nil => exact absurd hmem (List.not_mem_nil r0)
  | cons a l ih =>
    rw [List.map_cons, closedSum_cons, closedSum_cons]
    rcases List.mem_cons.mp hmem with heq | hmem'
    · subst heq
      have hnotin : ∀ x ∈ l, x.id ≠ r0.id := by
        intro x hx
        simp [List.nodup_cons] at hnd
        intro hxa
        exact hnd.1 x hx hxa
      have hmap : l.map (closeRecFn r0.id w d) = l := by
        rw [List.map_congr_left (fun x hx => closeRecFn_of_ne r0.id w d x (hnotin x hx))]
        exact List.map_id l
      rw [hmap]
      simp [closeRecFn, huid, hdur]
      omega
    · have hane : a.id ≠ r0.id := by
        simp [List.nodup_cons] at hnd
        intro h
        exact hnd.1 r0 hmem' h.symm
      rw [closeRecFn_of_ne r0.id w d a hane]
      have := ih (by simp [List.nodup_cons] at hnd; exact hnd.2) hmem'
      omega

/-! ### Lookup characterisations -/

theorem findUser_some {db : DB} {uid : Nat} {u : UserRow} (h : findUser db uid = some u) :
    u ∈ db.users ∧ u.id = uid := by
  have hm : u ∈ db.users.filter (fun v => v.id == uid) := by
    apply List.mem_of_mem_head?
    unfold findUser at h
    rw [h]
    simp
  have := List.mem_filter.mp hm
  exact ⟨this.1, by simpa using this.2⟩

theorem findUser_eq_none_iff (db : DB) (uid : Nat) :
    findUser db uid = none ↔ ∀ u ∈ db.users, u.id ≠ uid := by
  unfold findUser
  rw [List.head?_eq_none_iff, List.filter_eq_nil_iff]
  simp

theorem findUser_unique {db : DB} (hnd : (db.users.map (fun u => u.id)).Nodup)
    {uid : Nat} {u v : UserRow} (hu : u ∈ db.users) (hid : u.id = uid)
    (hv : findUser db uid = some v) : u = v := by
  obtain ⟨hvm, hvid⟩ := findUser_some hv
  exact List.inj_on_of_nodup_map hnd hu hvm (hid.trans hvid.symm)

theorem pickLatest_ne_none (acc : Option SleepRecord) (r : SleepRecord) :
    pickLatest acc r ≠ none := by
  cases acc with
  | none => simp [pickLatest]
  | some a =>
    simp only [pickLatest]
    split <;> simp

theorem foldl_pickLatest_mem (l : List SleepRecord) (acc : Option SleepRecord)
    (r : SleepRecord) (h : l.foldl pickLatest acc = some r) : acc = some r ∨ r ∈ l := by
  induction l generalizing acc with
  | nil => exact Or.inl h
  | cons x xs ih =>
    rcases ih (pickLatest acc x) h with hstep | hmem
    · unfold pickLatest at hstep
      cases acc with
      | none =>
        exact Or.inr (by simp at hstep; rw [← hstep]; exact List.mem_cons_self x xs)
      | some a =>
        rcases ite_eq_iff.mp hstep with ⟨_, hx⟩ | ⟨_, ha⟩
        · exact Or.inr (by simp at hx; rw [← hx]; exact List.mem_cons_self x xs)
        · exact Or.inl (by simp at ha; rw [ha])
    · exact Or.inr (List.mem_cons_of_mem x hmem)

theorem foldl_pickLatest_eq_none (l : List SleepRecord) (acc : Option SleepRecord) :
    l.foldl pickLatest acc = none ↔ acc = none ∧ l = [] := by
  induction l generalizing acc with
  | nil => simp
  | cons x xs ih =>
    simp only [List.foldl_cons]
    rw [ih]
    simp [pickLatest_ne_none acc x]

theorem latestOpen_some {db : DB} {uid : Nat} {r : SleepRecord}
    (h : latestOpen db uid = some r) :
    r ∈ db.records ∧ r.uid = uid ∧ r.wakeTime = none := by
  unfold latestOpen at h
  rcases foldl_pickLatest_mem _ _ _ h with hacc | hmem
  · exact absurd hacc (by simp)
  · have := List.mem_filter.mp hmem
    refine ⟨this.1, ?_, ?_⟩
    · have := this.2
      simp at this
      exact this.1
    · have := this.2
      simp [Option.isNone_iff_eq_none] at this
      exact this.2

theorem latestOpen_eq_none_iff (db : DB) (uid : Nat) :
    latestOpen db uid = none ↔ ∀ r ∈ db.records, r.uid = uid → r.wakeTime ≠ none := by
  unfold latestOpen
  rw [foldl_pickLatest_eq_none]
  simp [List.filter_eq_nil_iff, Option.isNone_iff_eq_none]

/-! ### Branch characterisations of the two middlewares -/

/-- The evening middleware takes exactly one of three branches: outside
the window; duplicate same-day open record; or create. -/
theorem eveningWrites_spec (cfg : Config) (db : DB) (uid : Nat) (now : Int) :
    (isInSpan (hourOf now) cfg .evening = false ∧
      eveningWrites cfg db uid now = (.notApplicable, [])) ∨
    (∃ r0, isInSpan (hourOf now) cfg .evening = true ∧
      (db.records.filter
        (fun r => r.uid == uid && r.date == dayOf now && r.wakeTime.isNone)).head? = some r0 ∧
      eveningWrites cfg db uid now = (.repeatToday r0.sleepTime,
        if (db.users.filter (fun u => u.id == uid)).isEmpty then [.createUser uid] else [])) ∨
    (isInSpan (hourOf now) cfg .evening = true ∧
      (db.records.filter
        (fun r => r.uid == uid && r.date == dayOf now && r.wakeTime.isNone)).head? = none ∧
      eveningWrites cfg db uid now = (.created now
          ((db.records.filter (fun r => r.uid == uid && r.date == dayOf now)).length + 1),
        (if (db.users.filter (fun u => u.id == uid)).isEmpty then [.createUser uid] else []) ++
          [.eveningTransact uid now (dayOf now)
            ((((db.users.filter (fun u => u.id == uid)).head?).map
              (fun u => u.sleepCount)).getD 0)])) := by
  by_cases hwin : isInSpan (hourOf now) cfg .evening = false
  · exact Or.inl ⟨hwin, by simp [eveningWrites, hwin]⟩
  · have hwin' : isInSpan (hourOf now) cfg .evening = true := by
      revert hwin; cases isInSpan (hourOf now) cfg .evening <;> simp
    cases hhead : (db.records.filter
        (fun r => r.uid == uid && r.date == dayOf now && r.wakeTime.isNone)).head? with
    | some r0 =>
      exact Or.inr (Or.inl ⟨r0, hwin', rfl, by simp [eveningWrites, hwin', hhead]⟩)
    | none =>
      exact Or.inr (Or.inr ⟨hwin', rfl, by simp [eveningWrites, hwin', hhead]⟩)

/-- The morning middleware takes exactly one of four branches. -/
theorem morningWrites_spec (cfg : Config) (db : DB) (uid : Nat) (now : Int) :
    (isInSpan (hourOf now) cfg .morning = false ∧
      morningWrites cfg db uid now = (.notApplicable, [])) ∨
    (isInSpan (hourOf now) cfg .morning = true ∧ findUser db uid = none ∧
      morningWrites cfg db uid now = (.noUser, [])) ∨
    (∃ user, isInSpan (hourOf now) cfg .morning = true ∧ findUser db uid = some user ∧
      latestOpen db uid = none ∧ morningWrites cfg db uid now = (.noUnfinished, [])) ∨
    (∃ user r, isInSpan (hourOf now) cfg .morning = true ∧ findUser db uid = some user ∧
      latestOpen db uid = some r ∧
      morningWrites cfg db uid now = (.closed r.sleepTime now
          (calcSleepDuration r.sleepTime now),
        [.setRecordClose r.id now (calcSleepDuration r.sleepTime now),
         .setUserClose uid (user.sleepTotal + calcSleepDuration r.sleepTime now)])) := by
  by_cases hwin : isInSpan (hourOf now) cfg .morning = false
  · exact Or.inl ⟨hwin, by simp [morningWrites, hwin]⟩
  · have hwin' : isInSpan (hourOf now) cfg .morning = true := by
      revert hwin; cases isInSpan (hourOf now) cfg .morning <;> simp
    cases huser : findUser db uid with
    | none => exact Or.inr (Or.inl ⟨hwin', rfl, by simp [morningWrites, hwin', huser]⟩)
    | some user =>
      cases hopen : latestOpen db uid with
      | none =>
        exact Or.inr (Or.inr (Or.inl ⟨user, hwin', rfl, rfl,
          by simp [morningWrites, hwin', huser, hopen]⟩))
      | some r =>
        exact Or.inr (Or.inr (Or.inr ⟨user, r, hwin', rfl, rfl,
          by simp [morningWrites, hwin', huser, hopen]⟩))

/-! ### Invariant preservation -/

theorem map_comp_eq {α β : Type} (l : List α) (f : α → α) (g : α → β)
    (h : ∀ a, g (f a) = g a) : (l.map f).map g = l.map g := by
  rw [List.map_map]
  exact List.map_congr_left (fun a _ => h a)

theorem closedSum_eq_zero_of_absent (rs : List SleepRecord) (uid : Nat)
    (h : ∀ r ∈ rs, r.uid ≠ uid) : closedSum rs uid = 0 := by
  unfold closedSum
  have : rs.filter (fun r => r.uid == uid) = [] := by
    rw [List.filter_eq_nil_iff]
    intro r hr
    simp [h r hr]
  rw [this]
  rfl

theorem sessionCount_eq_zero_of_absent (rs : List SleepRecord) (uid : Nat)
    (h : ∀ r ∈ rs, r.uid ≠ uid) : sessionCount rs uid = 0 := by
  unfold sessionCount
  have : rs.filter (fun r => r.uid == uid) = [] := by
    rw [List.filter_eq_nil_iff]
    intro r hr
    simp [h r hr]
  rw [this]
  rfl

theorem openDayCount_single (r : SleepRecord) (uid : Nat) (d : Int) :
    openDayCount [r] uid d =
      if r.uid = uid ∧ r.date = d ∧ r.wakeTime = none then 1 else 0 := by
  by_cases h1 : r.uid = uid <;> by_cases h2 : r.date = d <;> by_cases h3 : r.wakeTime = none <;>
    simp [openDayCount, List.filter_cons, h1, h2, h3, Option.isNone_iff_eq_none]

theorem sessionCount_single (r : SleepRecord) (uid : Nat) :
    sessionCount [r] uid = if r.uid = uid then 1 else 0 := by
  by_cases h : r.uid = uid <;> simp [sessionCount, List.filter_cons, h]

theorem inv_createUser {db : DB} (h : Inv db) {uid : Nat}
    (hno : ∀ u ∈ db.users, u.id ≠ uid) :
    Inv (applyWrite db (.createUser uid)) := by
  have hnorec : ∀ r ∈ db.records, r.uid ≠ uid := by
    intro r hr hruid
    obtain ⟨u, hu, huid⟩ := h.recUser r hr
    exact hno u hu (huid.trans hruid)
  constructor
  · simp only [applyWrite, List.map_append]
    rw [List.nodup_append]
    refine ⟨h.usersNodup, by simp, ?_⟩
    intro a ha
    simp only [List.mem_map] at ha
    obtain ⟨u, hu, rfl⟩ := ha
    simp [hno u hu]
  · exact h.recsNodup
  · exact h.idsBound
  · intro r hr
    obtain ⟨u, hu, huid⟩ := h.recUser r hr
    exact ⟨u, List.mem_append_left _ hu, huid⟩
  · exact h.durIffWake
  · exact h.openDay
  · intro u hu
    rcases List.mem_append.mp hu with hu' | hu'
    · exact h.totalEq u hu'
    · simp only [List.mem_singleton] at hu'
      subst hu'
      exact (closedSum_eq_zero_of_absent db.records uid hnorec).symm
  · intro u hu
    rcases List.mem_append.mp hu with hu' | hu'
    · exact h.countEq u hu'
    · simp only [List.mem_singleton] at hu'
      subst hu'
      exact (sessionCount_eq_zero_of_absent db.records uid hnorec).symm

theorem inv_transact {db : DB} (h : Inv db) {uid : Nat} {now today : Int} {prevCount : Nat}
    (huser : ∃ u ∈ db.users, u.id = uid)
    (hprev : prevCount = sessionCount db.records uid)
    (hopen : openDayCount db.records uid today = 0) :
    Inv (applyWrite db (.eveningTransact uid now today prevCount)) := by
  constructor
  · simp only [applyWrite]
    rw [map_comp_eq db.users _ _ (startUserFn_id uid db.nextId prevCount)]
    exact h.usersNodup
  · simp only [applyWrite, List.map_append]
    rw [List.nodup_append]
    refine ⟨h.recsNodup, by simp, ?_⟩
    intro a ha
    simp only [List.mem_map] at ha
    obtain ⟨r, hr, rfl⟩ := ha
    have := h.idsBound r hr
    simp
    omega
  · intro r hr
    simp only [applyWrite] at hr ⊢
    rcases List.mem_append.mp hr with hr' | hr'
    · have := h.idsBound r hr'
      omega
    · simp only [List.mem_singleton] at hr'
      subst hr'
      simp
  · intro r hr
    simp only [applyWrite] at hr ⊢
    rcases List.mem_append.mp hr with hr' | hr'
    · obtain ⟨u, hu, huid⟩ := h.recUser r hr'
      refine ⟨startUserFn uid db.nextId prevCount u, List.mem_map_of_mem _ hu, ?_⟩
      rw [startUserFn_id]
      exact huid
    · simp only [List.mem_singleton] at hr'
      subst hr'
      obtain ⟨u, hu, huid⟩ := huser
      refine ⟨startUserFn uid db.nextId prevCount u, List.mem_map_of_mem _ hu, ?_⟩
      rw [startUserFn_id]
      exact huid
  · intro r hr
    simp only [applyWrite] at hr
    rcases List.mem_append.mp hr with hr' | hr'
    · exact h.durIffWake r hr'
    · simp only [List.mem_singleton] at hr'
      subst hr'
      simp
  · intro uid' d'
    simp only [applyWrite]
    rw [openDayCount_append, openDayCount_single]
    by_cases hc : uid = uid' ∧ today = d'
    · have : openDayCount db.records uid' d' = 0 := by
        rw [← hc.1, ← hc.2]
        exact hopen
      simp [this, hc.1, hc.2]
    · have h1 := h.openDay uid' d'
      split
      · next hcond =>
          exfalso
          apply hc
          exact ⟨hcond.1.symm ▸ rfl, hcond.2.1.symm ▸ rfl⟩
      · omega
  · intro u hu
    simp only [applyWrite] at hu ⊢
    obtain ⟨v, hv, rfl⟩ := List.mem_map.mp hu
    rw [startUserFn_total, startUserFn_id]
    rw [closedSum_append, closedSum_single_open _ _ rfl]
    rw [h.totalEq v hv]
    omega
  · intro u hu
    simp only [applyWrite] at hu ⊢
    obtain ⟨v, hv, rfl⟩ := List.mem_map.mp hu
    rw [sessionCount_append, sessionCount_single]
    unfold startUserFn
    by_cases hvid : v.id = uid
    · simp only [hvid, if_pos rfl]
      have : sessionCount db.records uid = prevCount := hprev.symm
      simp [hvid, this.symm, hprev, h.countEq v hv]
    · simp only [if_neg hvid]
      rw [h.countEq v hv]
      have : ¬(uid = v.id) := fun hh => hvid hh.symm
      simp [startUserFn_id, hvid, this]

theorem inv_close {db : DB} (h : Inv db) {uid : Nat} {now d : Int} {user : UserRow}
    {r : SleepRecord} (hu : findUser db uid = some user) (hr : r ∈ db.records)
    (hruid : r.uid = uid) (hrwake : r.wakeTime = none) :
    Inv (applyWrites db
      [.setRecordClose r.id now d, .setUserClose uid (user.sleepTotal + d)]) := by
  obtain ⟨humem, huid⟩ := findUser_some hu
  have hrdur : r.duration = none := (h.durIffWake r hr).mp hrwake
  constructor
  · simp only [applyWrites, List.foldl_cons, List.foldl_nil, applyWrite]
    rw [map_comp_eq db.users _ _ (closeUserFn_id uid (user.sleepTotal + d))]
    exact h.usersNodup
  · simp only [applyWrites, List.foldl_cons, List.foldl_nil, applyWrite]
    rw [map_comp_eq db.records _ _ (closeRecFn_id r.id now d)]
    exact h.recsNodup
  · intro r' hr'
    simp only [applyWrites, List.foldl_cons, List.foldl_nil, applyWrite] at hr' ⊢
    obtain ⟨r0, hr0, rfl⟩ := List.mem_map.mp hr'
    rw [closeRecFn_id]
    exact h.idsBound r0 hr0
  · intro r' hr'
    simp only [applyWrites, List.foldl_cons, List.foldl_nil, applyWrite] at hr' ⊢
    obtain ⟨r0, hr0, rfl⟩ := List.mem_map.mp hr'
    obtain ⟨u, hu', huid'⟩ := h.recUser r0 hr0
    refine ⟨closeUserFn uid (user.sleepTotal + d) u, List.mem_map_of_mem _ hu', ?_⟩
    rw [closeUserFn_id, closeRecFn_uid]
    exact huid'
  · intro r' hr'
    simp only [applyWrites, List.foldl_cons, List.foldl_nil, applyWrite] at hr'
    obtain ⟨r0, hr0, rfl⟩ := List.mem_map.mp hr'
    unfold closeRecFn
    by_cases hid : r0.id = r.id
    · simp [hid]
    · simp only [if_neg hid]
      exact h.durIffWake r0 hr0
  · intro uid' d'
    simp only [applyWrites, List.foldl_cons, List.foldl_nil, applyWrite]
    calc openDayCount (db.records.map (closeRecFn r.id now d)) uid' d'
        ≤ openDayCount db.records uid' d' := openDayCount_map_close_le _ _ _ _ _ _
      _ ≤ 1 := h.openDay uid' d'
  · intro u hu'
    simp only [applyWrites, List.foldl_cons, List.foldl_nil, applyWrite] at hu' ⊢
    obtain ⟨v, hv, rfl⟩ := List.mem_map.mp hu'
    unfold closeUserFn
    by_cases hvid : v.id = uid
    · have hveq : v = user := findUser_unique h.usersNodup hv hvid hu
      subst hveq
      simp only [if_pos hvid]
      rw [hvid]
      rw [closedSum_map_close_self db.records r now d uid h.recsNodup hr hruid hrdur]
      rw [← hruid] at hvid ⊢
      rw [h.totalEq v hv, hvid]
    · simp only [if_neg hvid]
      rw [closedSum_map_close_other]
      · exact h.totalEq v hv
      · intro a ha haid
        have : a = r := List.inj_on_of_nodup_map h.recsNodup ha hr haid
        subst this
        rw [hruid]
        intro hc
        exact hvid hc.symm
  · intro u hu'
    simp only [applyWrites, List.foldl_cons, List.foldl_nil, applyWrite] at hu' ⊢
    obtain ⟨v, hv, rfl⟩ := List.mem_map.mp hu'
    rw [closeUserFn_count, closeUserFn_id, sessionCount_map_close]
    exact h.countEq v hv

theorem filter_isEmpty_false_of_mem {α : Type} {l : List α} {p : α → Bool} {a : α}
    (ha : a ∈ l) (hp : p a = true) : (l.filter p).isEmpty = false := by
  have : a ∈ l.filter p := List.mem_filter.mpr ⟨ha, hp⟩
  cases hl : l.filter p with
  | nil => rw [hl] at this; exact absurd this (List.not_mem_nil a)
  | cons x xs => simp

theorem inv_evening {cfg : Config} {db : DB} {uid : Nat} {now : Int} (h : Inv db) :
    Inv (applyWrites db (eveningWrites cfg db uid now).2) := by
  rcases eveningWrites_spec cfg db uid now with ⟨_, heq⟩ | ⟨r0, _, hhead, heq⟩ |
    ⟨_, hhead, heq⟩
  · rw [heq]
    exact h
  · rw [heq]
    have hr0m : r0 ∈ db.records.filter
        (fun r => r.uid == uid && r.date == dayOf now && r.wakeTime.isNone) :=
      List.mem_of_mem_head? (by rw [hhead]; simp)
    have hr0 := List.mem_filter.mp hr0m
    have hr0uid : r0.uid = uid := by
      have := hr0.2
      simp at this
      exact this.1.1
    obtain ⟨u, hu, huid⟩ := h.recUser r0 hr0.1
    have hne : (db.users.filter (fun v => v.id == uid)).isEmpty = false :=
      filter_isEmpty_false_of_mem hu (by simp [huid, hr0uid])
    rw [hne]
    exact h
  · rw [heq]
    have hopen : openDayCount db.records uid (dayOf now) = 0 := by
      unfold openDayCount
      rw [List.head?_eq_none_iff.mp hhead]
      rfl
    by_cases hemp : (db.users.filter (fun v => v.id == uid)).isEmpty = true
    · have hnil : db.users.filter (fun v => v.id == uid) = [] :=
        List.isEmpty_iff.mp hemp
      have hno : ∀ u ∈ db.users, u.id ≠ uid := by
        intro u hu hc
        have := List.filter_eq_nil_iff.mp hnil u hu
        simp [hc] at this
      have hnorec : ∀ r ∈ db.records, r.uid ≠ uid := by
        intro r hr hc
        obtain ⟨u, hu, huid⟩ := h.recUser r hr
        exact hno u hu (huid.trans hc)
      rw [hemp]
      simp only [if_true, hnil, List.head?_nil, Option.map_none, Option.getD_none]
      show Inv (applyWrite (applyWrite db (.createUser uid))
        (.eveningTransact uid now (dayOf now) 0))
      apply inv_transact (inv_createUser h hno)
      · exact ⟨⟨uid, 0, 0, none⟩, List.mem_append_right _ (List.mem_singleton.mpr rfl), rfl⟩
      · exact (sessionCount_eq_zero_of_absent db.records uid hnorec).symm
      · exact hopen
    · have hemp' : (db.users.filter (fun v => v.id == uid)).isEmpty = false := by
        revert hemp
        cases (db.users.filter (fun v => v.id == uid)).isEmpty <;> simp
      rw [hemp']
      cases hfu : (db.users.filter (fun v => v.id == uid)).head? with
      | none =>
        exfalso
        rw [List.head?_eq_none_iff.mp hfu] at hemp'
        simp at hemp'
      | some u1 =>
        have hfu' : findUser db uid = some u1 := hfu
        obtain ⟨hu1m, hu1id⟩ := findUser_some hfu'
        simp only [hfu, Option.map_some, Option.getD_some, if_false, List.nil_append]
        show Inv (applyWrite db (.eveningTransact uid now (dayOf now) u1.sleepCount))
        apply inv_transact h
        · exact ⟨u1, hu1m, hu1id⟩
        · rw [h.countEq u1 hu1m, hu1id]
        · exact hopen

theorem inv_morning {cfg : Config} {db : DB} {uid : Nat} {now : Int} (h : Inv db) :
    Inv (applyWrites db (morningWrites cfg db uid now).2) := by
  rcases morningWrites_spec cfg db uid now with ⟨_, heq⟩ | ⟨_, _, heq⟩ |
    ⟨user, _, _, _, heq⟩ | ⟨user, r, _, hfu, hlo, heq⟩
  · rw [heq]; exact h
  · rw [heq]; exact h
  · rw [heq]; exact h
  · rw [heq]
    obtain ⟨hrm, hruid, hrwake⟩ := latestOpen_some hlo
    exact inv_close h hfu hrm hruid hrwake

theorem inv_runOp {cfg : Config} {db : DB} (h : Inv db) (op : Op) :
    Inv (runOp cfg db op) := by
  cases op with
  | sleep uid now => exact inv_evening h
  | wake uid now => exact inv_morning h

theorem inv_foldl (cfg : Config) (ops : List Op) :
    ∀ db, Inv db → Inv (ops.foldl (runOp cfg) db) := by
  induction ops with
  | nil => intro db h; exact h
  | cons o os ih => intro db h; exact ih _ (inv_runOp h o)

theorem inv_runOps (cfg : Config) (ops : List Op) : Inv (runOps cfg ops) :=
  inv_foldl cfg ops emptyDB inv_empty

/-! ### Effect lemmas for the two state transitions -/

theorem head?_filter_map {α : Type} (l : List α) (f : α → α) (p : α → Bool)
    (h : ∀ a, p (f a) = p a) :
    ((l.map f).filter p).head? = ((l.filter p).head?).map f := by
  rw [List.filter_map]
  have hc : List.filter (p ∘ f) l = List.filter p l :=
    List.filter_congr (fun a _ => h a)
  rw [hc, List.head?_map]

/-- What a successful sleep-end does to the storage state: the session
row of the limit-1 query gets its `wakeTime`/`duration` set, and the
user row gets `sleepTotal` increased by the computed duration and
`lastSleepId` cleared — all other fields, `sleepCount` included, are
untouched. -/
theorem morning_closed_effects {cfg : Config} {db : DB} {uid : Nat} {now s w d : Int}
    (hres : (morningWrites cfg db uid now).1 = .closed s w d) :
    w = now ∧
    ∃ user, findUser db uid = some user ∧
    ∃ r ∈ db.records, r.uid = uid ∧ r.wakeTime = none ∧ r.sleepTime = s ∧
      d = calcSleepDuration s now ∧
      (morningWrites cfg db uid now).2 =
        [.setRecordClose r.id now d, .setUserClose uid (user.sleepTotal + d)] ∧
      findUser (applyWrites db (morningWrites cfg db uid now).2) uid =
        some { user with sleepTotal := user.sleepTotal + d, lastSleepId := none } ∧
      { r with wakeTime := some now, duration := some d } ∈
        (applyWrites db (morningWrites cfg db uid now).2).records := by
  rcases morningWrites_spec cfg db uid now with ⟨_, heq⟩ | ⟨_, _, heq⟩ |
    ⟨user, _, _, _, heq⟩ | ⟨user, r, _, hfu, hlo, heq⟩
  · rw [heq] at hres; cases hres
  · rw [heq] at hres; cases hres
  · rw [heq] at hres; cases hres
  · rw [heq] at hres
    obtain ⟨hs, hw, hd⟩ : r.sleepTime = s ∧ now = w ∧ calcSleepDuration r.sleepTime now = d := by
      cases hres
      exact ⟨rfl, rfl, rfl⟩
    obtain ⟨hrm, hruid, hrwake⟩ := latestOpen_some hlo
    obtain ⟨humem, huid⟩ := findUser_some hfu
    subst hs
    subst hd
    refine ⟨hw.symm, user, hfu, r, hrm, hruid, hrwake, rfl, rfl, ?_, ?_, ?_⟩
    · rw [heq]
    · rw [heq]
      show ((db.users.map (closeUserFn uid
          (user.sleepTotal + calcSleepDuration r.sleepTime now))).filter
          (fun u => u.id == uid)).head? = _
      rw [head?_filter_map db.users _ _
        (fun u => by simp [closeUserFn_id])]
      show ((findUser db uid).map _) = _
      rw [hfu]
      simp [closeUserFn, huid]
    · rw [heq]
      show _ ∈ db.records.map (closeRecFn r.id now (calcSleepDuration r.sleepTime now))
      have : closeRecFn r.id now (calcSleepDuration r.sleepTime now) r =
          { r with wakeTime := some now,
                   duration := some (calcSleepDuration r.sleepTime now) } := by
        unfold closeRecFn
        rw [if_pos rfl]
      rw [← this]
      exact List.mem_map_of_mem _ hrm

/-- What a duplicate same-day sleep-start does: when the user already
has an open session opened on the current calendar day, the middleware
answers with that session's original `sleepTime` (which is unique) and
issues no write at all. -/
theorem evening_repeat_effects {cfg : Config} {db : DB} {uid : Nat} {now : Int}
    (h : Inv db) (hwin : isInSpan (hourOf now) cfg .evening = true)
    (hopen : ∃ r ∈ db.records, r.uid = uid ∧ r.date = dayOf now ∧ r.wakeTime = none) :
    ∃ r0 ∈ db.records, r0.uid = uid ∧ r0.date = dayOf now ∧ r0.wakeTime = none ∧
      (∀ r' ∈ db.records, r'.uid = uid → r'.date = dayOf now → r'.wakeTime = none →
        r' = r0) ∧
      eveningWrites cfg db uid now = (.repeatToday r0.sleepTime, []) ∧
      applyWrites db (eveningWrites cfg db uid now).2 = db := by
  obtain ⟨ra, hram, hrauid, hradate, hrawake⟩ := hopen
  have hram' : ra ∈ db.records.filter
      (fun r => r.uid == uid && r.date == dayOf now && r.wakeTime.isNone) :=
    List.mem_filter.mpr ⟨hram, by simp [hrauid, hradate, hrawake]⟩
  rcases eveningWrites_spec cfg db uid now with ⟨hwin', _⟩ | ⟨r0, _, hhead, heq⟩ |
    ⟨_, hhead, heq⟩
  · rw [hwin] at hwin'; cases hwin'
  · have hr0m : r0 ∈ db.records.filter
        (fun r => r.uid == uid && r.date == dayOf now && r.wakeTime.isNone) :=
      List.mem_of_mem_head? (by rw [hhead]; simp)
    have hr0 := List.mem_filter.mp hr0m
    have hr0props : r0.uid = uid ∧ r0.date = dayOf now ∧ r0.wakeTime = none := by
      have := hr0.2
      simp [Option.isNone_iff_eq_none] at this
      exact ⟨this.1.1, this.1.2, this.2⟩
    have hsingle : db.records.filter
        (fun r => r.uid == uid && r.date == dayOf now && r.wakeTime.isNone) = [r0] := by
      have hle := h.openDay uid (dayOf now)
      unfold openDayCount at hle
      cases hfil : db.records.filter
          (fun r => r.uid == uid && r.date == dayOf now && r.wakeTime.isNone) with
      | nil => rw [hfil] at hhead; cases hhead
      | cons x xs =>
        rw [hfil] at hhead hle
        have hx : x = r0 := by
          simp only [List.head?_cons, Option.some_inj] at hhead
          exact hhead
        have hxs : xs = [] := by
          simp only [List.length_cons] at hle
          exact List.eq_nil_of_length_eq_zero (by omega)
        rw [hx, hxs]
    have huniq : ∀ r' ∈ db.records, r'.uid = uid → r'.date = dayOf now →
        r'.wakeTime = none → r' = r0 := by
      intro r' hr'm h1 h2 h3
      have : r' ∈ db.records.filter
          (fun r => r.uid == uid && r.date == dayOf now && r.wakeTime.isNone) :=
        List.mem_filter.mpr ⟨hr'm, by simp [h1, h2, h3]⟩
      rw [hsingle] at this
      exact List.mem_singleton.mp this
    obtain ⟨u, hu, huid⟩ := h.recUser r0 hr0.1
    have hne : (db.users.filter (fun v => v.id == uid)).isEmpty = false :=
      filter_isEmpty_false_of_mem hu (by simp [huid, hr0props.1])
    rw [hne] at heq
    refine ⟨r0, hr0.1, hr0props.1, hr0props.2.1, hr0props.2.2, huniq, ?_, ?_⟩
    · simpa using heq
    · rw [heq]
      simp [applyWrites]
  · exfalso
    rw [List.head?_eq_none_iff.mp hhead] at hram'
    exact List.not_mem_nil ra hram'

/-! ### Sorting and grouping lemmas for the leaderboard -/

theorem insertStable_perm {α : Type} (keep : α → α → Bool) (x : α) (l : List α) :
    (insertStable keep x l).Perm (x :: l) := by
  induction l with
  | nil => exact List.Perm.refl _
  | cons y ys ih =>
    unfold insertStable
    split
    · exact (ih.cons y).trans (List.Perm.swap x y ys)
    · exact List.Perm.refl _

theorem stableSort_perm {α : Type} (keep : α → α → Bool) (l : List α) :
    (stableSort keep l).Perm l := by
  induction l with
  | nil => exact List.Perm.refl _
  | cons x xs ih =>
    unfold stableSort
    exact (insertStable_perm keep x _).trans (ih.cons x)

theorem insertStable_pairwise_lex (x : RankStat) (l : List RankStat)
    (hl : l.Pairwise lexBefore)
    (hcmp : ∀ y ∈ l, (x.total < y.total → lexBefore y x) ∧
      (¬ x.total < y.total → lexBefore x y)) :
    (insertStable (fun a b => decide (a.total < b.total)) x l).Pairwise lexBefore := by
  induction l with
  | nil => simp [insertStable]
  | cons y ys ih =>
    unfold insertStable
    by_cases hk : x.total < y.total
    · rw [if_pos (by simpa using hk)]
      rw [List.pairwise_cons]
      constructor
      · intro z hz
        have hz' : z ∈ x :: ys := (insertStable_perm _ x ys).mem_iff.mp hz
        rcases List.mem_cons.mp hz' with rfl | hzys
        · exact (hcmp y (List.mem_cons_self y ys)).1 hk
        · exact (List.pairwise_cons.mp hl).1 z hzys
      · exact ih (List.pairwise_cons.mp hl).2
          (fun z hz => hcmp z (List.mem_cons_of_mem y hz))
    · rw [if_neg (by simpa using hk)]
      rw [List.pairwise_cons]
      constructor
      · intro z hz
        rcases List.mem_cons.mp hz with rfl | hzys
        · exact (hcmp z (List.mem_cons_self z ys)).2 hk
        · have hyz := (List.pairwise_cons.mp hl).1 z hzys
          have hzy : z.total ≤ y.total := by
            rcases hyz with h1 | ⟨h1, _⟩ <;> omega
          exact (hcmp z (List.mem_cons_of_mem y hzys)).2 (by omega)
      · exact hl

theorem sortByTotalDesc_pairwise (l : List RankStat)
    (hl : l.Pairwise (fun a b => a.uid < b.uid)) :
    (sortByTotalDesc l).Pairwise lexBefore := by
  unfold sortByTotalDesc
  induction l with
  | nil => simp [stableSort]
  | cons x xs ih =>
    unfold stableSort
    apply insertStable_pairwise_lex
    · exact ih (List.pairwise_cons.mp hl).2
    · intro y hy
      have hyxs : y ∈ xs :=
        (stableSort_perm (fun a b => decide (a.total < b.total)) xs).mem_iff.mp hy
      have huid : x.uid < y.uid := (List.pairwise_cons.mp hl).1 y hyxs
      refine ⟨fun hlt => Or.inl hlt, fun hnlt => ?_⟩
      by_cases heq : x.total = y.total
      · exact Or.inr ⟨heq, huid⟩
      · exact Or.inl (by omega)

theorem statTotal_cons (a : RankStat) (l : List RankStat) (uid : Nat) :
    statTotal (a :: l) uid = (if a.uid = uid then a.total else 0) + statTotal l uid := by
  by_cases h : a.uid = uid <;> simp [statTotal, List.filter_cons, h]

theorem statCount_cons (a : RankStat) (l : List RankStat) (uid : Nat) :
    statCount (a :: l) uid = (if a.uid = uid then a.count else 0) + statCount l uid := by
  by_cases h : a.uid = uid <;> simp [statCount, List.filter_cons, h]

theorem durSum_cons (r : SleepRecord) (l : List SleepRecord) (uid : Nat) :
    durSum (r :: l) uid =
      (if r.uid = uid then r.duration.getD 0 else 0) + durSum l uid := by
  by_cases h : r.uid = uid <;> simp [durSum, List.filter_cons, h]

theorem sessionCount_cons (r : SleepRecord) (l : List SleepRecord) (uid : Nat) :
    sessionCount (r :: l) uid = (if r.uid = uid then 1 else 0) + sessionCount l uid := by
  by_cases h : r.uid = uid <;> simp [sessionCount, List.filter_cons, h]
  omega

theorem durSum_eq_closedSum (rs : List SleepRecord) (uid : Nat) :
    durSum rs uid = closedSum rs uid := by
  induction rs with
  | nil => simp [durSum, closedSum]
  | cons r l ih => rw [durSum_cons, closedSum_cons, ih]

theorem statTotal_bump (r : SleepRecord) (acc : List RankStat) (uid : Nat) :
    statTotal (bumpStat r acc) uid =
      statTotal acc uid + (if r.uid = uid then r.duration.getD 0 else 0) := by
  induction acc with
  | nil =>
    by_cases h : r.uid = uid <;> simp [bumpStat, statTotal, List.filter_cons, h]
  | cons s ss ih =>
    unfold bumpStat
    by_cases h1 : r.uid < s.uid
    · rw [if_pos h1, statTotal_cons, statTotal_cons]
      by_cases h : r.uid = uid <;> simp [h] <;> omega
    · rw [if_neg h1]
      by_cases h2 : r.uid = s.uid
      · rw [if_pos h2, statTotal_cons, statTotal_cons]
        by_cases h : s.uid = uid
        · have hr : r.uid = uid := h2.trans h
          simp [h, hr]
          omega
        · have hr : r.uid ≠ uid := fun hc => h (h2 ▸ hc)
          simp [h, hr]
      · rw [if_neg h2, statTotal_cons, statTotal_cons, ih]
        omega

theorem statCount_bump (r : SleepRecord) (acc : List RankStat) (uid : Nat) :
    statCount (bumpStat r acc) uid =
      statCount acc uid + (if r.uid = uid then 1 else 0) := by
  induction acc with
  | nil =>
    by_cases h : r.uid = uid <;> simp [bumpStat, statCount, List.filter_cons, h]
  | cons s ss ih =>
    unfold bumpStat
    by_cases h1 : r.uid < s.uid
    · rw [if_pos h1, statCount_cons, statCount_cons]
      by_cases h : r.uid = uid <;> simp [h] <;> omega
    · rw [if_neg h1]
      by_cases h2 : r.uid = s.uid
      · rw [if_pos h2, statCount_cons, statCount_cons]
        by_cases h : s.uid = uid
        · have hr : r.uid = uid := h2.trans h
          simp [h, hr]
          omega
        · have hr : r.uid ≠ uid := fun hc => h (h2 ▸ hc)
          simp [h, hr]
      · rw [if_neg h2, statCount_cons, statCount_cons, ih]
        omega

theorem bumpStat_uid_mem (r : SleepRecord) (acc : List RankStat) :
    ∀ z ∈ bumpStat r acc, z.uid = r.uid ∨ ∃ z0 ∈ acc, z.uid = z0.uid := by
  induction acc with
  | nil =>
    intro z hz
    simp [bumpStat] at hz
    subst hz
    exact Or.inl rfl
  | cons s ss ih =>
    intro z hz
    unfold bumpStat at hz
    by_cases h1 : r.uid < s.uid
    · rw [if_pos h1] at hz
      rcases List.mem_cons.mp hz with rfl | hz'
      · exact Or.inl rfl
      · exact Or.inr ⟨z, hz', rfl⟩
    · rw [if_neg h1] at hz
      by_cases h2 : r.uid = s.uid
      · rw [if_pos h2] at hz
        rcases List.mem_cons.mp hz with rfl | hz'
        · exact Or.inr ⟨s, List.mem_cons_self s ss, rfl⟩
        · exact Or.inr ⟨z, List.mem_cons_of_mem s hz', rfl⟩
      · rw [if_neg h2] at hz
        rcases List.mem_cons.mp hz with rfl | hz'
        · exact Or.inr ⟨z, List.mem_cons_self z ss, rfl⟩
        · rcases ih z hz' with h | ⟨z0, hz0, hzu⟩
          · exact Or.inl h
          · exact Or.inr ⟨z0, List.mem_cons_of_mem s hz0, hzu⟩

theorem bumpStat_sorted (r : SleepRecord) (acc : List RankStat)
    (h : acc.Pairwise (fun a b => a.uid < b.uid)) :
    (bumpStat r acc).Pairwise (fun a b => a.uid < b.uid) := by
  induction acc with
  | nil => simp [bumpStat]
  | cons s ss ih =>
    unfold bumpStat
    by_cases h1 : r.uid < s.uid
    · rw [if_pos h1]
      rw [List.pairwise_cons]
      constructor
      · intro z hz
        rcases List.mem_cons.mp hz with rfl | hz'
        · exact h1
        · exact h1.trans ((List.pairwise_cons.mp h).1 z hz')
      · exact h
    · rw [if_neg h1]
      by_cases h2 : r.uid = s.uid
      · rw [if_pos h2]
        rw [List.pairwise_cons]
        exact ⟨fun z hz => (List.pairwise_cons.mp h).1 z hz, (List.pairwise_cons.mp h).2⟩
      · rw [if_neg h2]
        rw [List.pairwise_cons]
        constructor
        · intro z hz
          rcases bumpStat_uid_mem r ss z hz with hzu | ⟨z0, hz0, hzu⟩
          · rw [hzu]; omega
          · rw [hzu]
            exact (List.pairwise_cons.mp h).1 z0 hz0
        · exact ih (List.pairwise_cons.mp h).2

theorem bumpStat_mem_self (r : SleepRecord) (acc : List RankStat) :
    ∃ z ∈ bumpStat r acc, z.uid = r.uid := by
  induction acc with
  | nil => exact ⟨⟨r.uid, r.duration.getD 0, 1⟩, by simp [bumpStat], rfl⟩
  | cons s ss ih =>
    unfold bumpStat
    by_cases h1 : r.uid < s.uid
    · rw [if_pos h1]
      exact ⟨⟨r.uid, r.duration.getD 0, 1⟩, List.mem_cons_self _ _, rfl⟩
    · rw [if_neg h1]
      by_cases h2 : r.uid = s.uid
      · rw [if_pos h2]
        exact ⟨{ s with total := s.total + r.duration.getD 0, count := s.count + 1 },
          List.mem_cons_self _ _, h2.symm⟩
      · rw [if_neg h2]
        obtain ⟨z, hz, hzu⟩ := ih
        exact ⟨z, List.mem_cons_of_mem s hz, hzu⟩

theorem bumpStat_mem_keep (r : SleepRecord) (acc : List RankStat) :
    ∀ z0 ∈ acc, ∃ z ∈ bumpStat r acc, z.uid = z0.uid := by
  induction acc with
  | nil => intro z0 hz0; exact absurd hz0 (List.not_mem_nil z0)
  | cons s ss ih =>
    intro z0 hz0
    unfold bumpStat
    by_cases h1 : r.uid < s.uid
    · rw [if_pos h1]
      exact ⟨z0, List.mem_cons_of_mem _ hz0, rfl⟩
    · rw [if_neg h1]
      by_cases h2 : r.uid = s.uid
      · rw [if_pos h2]
        rcases List.mem_cons.mp hz0 with rfl | hz0'
        · exact ⟨{ z0 with total := z0.total + r.duration.getD 0, count := z0.count + 1 },
            List.mem_cons_self _ _, rfl⟩
        · exact ⟨z0, List.mem_cons_of_mem _ hz0', rfl⟩
      · rw [if_neg h2]
        rcases List.mem_cons.mp hz0 with rfl | hz0'
        · exact ⟨z0, List.mem_cons_self _ _, rfl⟩
        · obtain ⟨z, hz, hzu⟩ := ih z0 hz0'
          exact ⟨z, List.mem_cons_of_mem s hz, hzu⟩

theorem bumpStat_presence (r : SleepRecord) (acc : List RankStat) (uid : Nat) :
    (∃ z ∈ bumpStat r acc, z.uid = uid) ↔ (r.uid = uid ∨ ∃ z ∈ acc, z.uid = uid) := by
  constructor
  · rintro ⟨z, hz, hzu⟩
    rcases bumpStat_uid_mem r acc z hz with h | ⟨z0, hz0, hzu0⟩
    · exact Or.inl (h ▸ hzu)
    · exact Or.inr ⟨z0, hz0, hzu0 ▸ hzu⟩
  · rintro (h | ⟨z0, hz0, hzu0⟩)
    · obtain ⟨z, hz, hzu⟩ := bumpStat_mem_self r acc
      exact ⟨z, hz, hzu.trans h⟩
    · obtain ⟨z, hz, hzu⟩ := bumpStat_mem_keep r acc z0 hz0
      exact ⟨z, hz, hzu.trans hzu0⟩

theorem buildStats_foldl_total (rs : List SleepRecord) :
    ∀ (acc : List RankStat) (uid : Nat),
      statTotal (rs.foldl (fun a r => bumpStat r a) acc) uid =
        statTotal acc uid + durSum rs uid := by
  induction rs with
  | nil => intro acc uid; simp [durSum]
  | cons r l ih =>
    intro acc uid
    simp only [List.foldl_cons]
    rw [ih (bumpStat r acc) uid, statTotal_bump, durSum_cons]
    omega

theorem buildStats_foldl_count (rs : List SleepRecord) :
    ∀ (acc : List RankStat) (uid : Nat),
      statCount (rs.foldl (fun a r => bumpStat r a) acc) uid =
        statCount acc uid + sessionCount rs uid := by
  induction rs with
  | nil => intro acc uid; simp [sessionCount]
  | cons r l ih =>
    intro acc uid
    simp only [List.foldl_cons]
    rw [ih (bumpStat r acc) uid, statCount_bump, sessionCount_cons]
    omega

theorem buildStats_total (rs : List SleepRecord) (uid : Nat) :
    statTotal (buildStats rs) uid = durSum rs uid := by
  unfold buildStats
  rw [buildStats_foldl_total]
  simp [statTotal]

theorem buildStats_count (rs : List SleepRecord) (uid : Nat) :
    statCount (buildStats rs) uid = sessionCount rs uid := by
  unfold buildStats
  rw [buildStats_foldl_count]
  simp [statCount]

theorem buildStats_foldl_sorted (rs : List SleepRecord) :
    ∀ acc : List RankStat, acc.Pairwise (fun a b => a.uid < b.uid) →
      (rs.foldl (fun a r => bumpStat r a) acc).Pairwise (fun a b => a.uid < b.uid) := by
  induction rs with
  | nil => intro acc h; exact h
  | cons r l ih =>
    intro acc h
    simp only [List.foldl_cons]
    exact ih (bumpStat r acc) (bumpStat_sorted r acc h)

theorem buildStats_sorted (rs : List SleepRecord) :
    (buildStats rs).Pairwise (fun a b => a.uid < b.uid) :=
  buildStats_foldl_sorted rs [] (by simp)

theorem buildStats_foldl_presence (rs : List SleepRecord) :
    ∀ (acc : List RankStat) (uid : Nat),
      (∃ z ∈ rs.foldl (fun a r => bumpStat r a) acc, z.uid = uid) ↔
        ((∃ z ∈ acc, z.uid = uid) ∨ ∃ r ∈ rs, r.uid = uid) := by
  induction rs with
  | nil => intro acc uid; simp
  | cons r l ih =>
    intro acc uid
    simp only [List.foldl_cons]
    rw [ih (bumpStat r acc) uid]
    rw [bumpStat_presence]
    constructor
    · rintro ((h | h) | h)
      · exact Or.inr ⟨r, List.mem_cons_self r l, h⟩
      · exact Or.inl h
      · obtain ⟨x, hx, hxu⟩ := h
        exact Or.inr ⟨x, List.mem_cons_of_mem r hx, hxu⟩
    · rintro (h | ⟨x, hx, hxu⟩)
      · exact Or.inl (Or.inr h)
      · rcases List.mem_cons.mp hx with rfl | hx'
        · exact Or.inl (Or.inl hxu)
        · exact Or.inr ⟨x, hx', hxu⟩

theorem buildStats_presence (rs : List SleepRecord) (uid : Nat) :
    (∃ z ∈ buildStats rs, z.uid = uid) ↔ ∃ r ∈ rs, r.uid = uid := by
  unfold buildStats
  rw [buildStats_foldl_presence]
  simp

theorem filter_uid_single (l : List RankStat)
    (hl : l.Pairwise (fun a b => a.uid < b.uid)) :
    ∀ s ∈ l, l.filter (fun t => t.uid == s.uid) = [s] := by
  induction l with
  | nil => intro s hs; cases hs
  | cons a l ih =>
    intro s hs
    rcases List.mem_cons.mp hs with rfl | hs'
    · rw [List.filter_cons]
      have hnil : l.filter (fun t => t.uid == s.uid) = [] := by
        rw [List.filter_eq_nil_iff]
        intro t ht
        have := (List.pairwise_cons.mp hl).1 t ht
        simp
        omega
      simp [hnil]
    · have ha : a.uid < s.uid := (List.pairwise_cons.mp hl).1 s hs'
      rw [List.filter_cons]
      have hne : (a.uid == s.uid) = false := by
        simp
        omega
      simp only [hne, Bool.false_eq_true, if_false]
      exact ih (List.pairwise_cons.mp hl).2 s hs'

theorem buildStats_entry (rs : List SleepRecord) :
    ∀ s ∈ buildStats rs,
      s.total = closedSum rs s.uid ∧ s.count = sessionCount rs s.uid := by
  intro s hs
  have hfil := filter_uid_single _ (buildStats_sorted rs) s hs
  constructor
  · have h1 := buildStats_total rs s.uid
    unfold statTotal at h1
    rw [hfil] at h1
    rw [durSum_eq_closedSum] at h1
    simpa using h1
  · have h1 := buildStats_count rs s.uid
    unfold statCount at h1
    rw [hfil] at h1
    simpa using h1

/-! ### Rounding bounds and single-write atomicity -/

theorem jsRoundDiv_nonneg (num den : Int) (h1 : 0 ≤ num) (h2 : 0 ≤ den) :
    0 ≤ jsRoundDiv num den := by
  unfold jsRoundDiv
  rw [Int.fdiv_eq_ediv _ (by omega)]
  exact Int.ediv_nonneg (by omega) (by omega)

theorem jsRoundDiv_bounds (num den : Int) (h : 0 < den) :
    2 * num - den < 2 * den * jsRoundDiv num den ∧
      2 * den * jsRoundDiv num den ≤ 2 * num + den := by
  unfold jsRoundDiv
  rw [Int.fdiv_eq_ediv _ (by omega)]
  have h1 := Int.ediv_add_emod (2 * num + den) (2 * den)
  have h2 := Int.emod_nonneg (2 * num + den) (b := 2 * den) (by omega)
  have h3 := Int.emod_lt_of_pos (2 * num + den) (b := 2 * den) (by omega)
  omega

theorem atomicRun_single (db : DB) (w : Write) : atomicRun db [w] := by
  intro s hs
  have hs' : s = db ∨ s = applyWrite db w := by
    simpa [writeStates, List.scanl] using hs
  rcases hs' with h | h
  · exact Or.inl h
  · exact Or.inr (by rw [h]; rfl)

theorem isEmpty_iff_nil {α : Type} (l : List α) : l.isEmpty = true ↔ l = [] := by
  cases l <;> simp

/-! ### Claim theorems -/

/-- C1 (counterexample): the claim "at most one open session per user at
any time, even across calendar days" fails on the code.  The duplicate
check of the evening middleware filters by `date = today`, so a second
sleep-start on the next calendar day (both at 23:00, default windows)
leaves the user with two sessions whose wake time is unset. -/
theorem C1_counterexample :
    dayOf 82800000 = 0 ∧ dayOf 169200000 = 1 ∧
    hourOf 82800000 = 23 ∧ hourOf 169200000 = 23 ∧
    openCount (runOps defaultConfig [.sleep 1 82800000, .sleep 1 169200000]) 1 = 2 := by
  decide

/-- C1 (amended): after any sequence of sleep-start/sleep-end events, a
user has at most one open session **per calendar day**: a sleep-start
while an open session from the same calendar day exists does not create
a second one (but an open session from an earlier day does not prevent a
new one, so open sessions on different days can coexist). -/
theorem C1_theorem (cfg : Config) (ops : List Op) (uid : Nat) (d : Int) :
    openDayCount (runOps cfg ops).records uid d ≤ 1 :=
  (inv_runOps cfg ops).openDay uid d

/-- C2 (counterexample): a successful sleep-end (here closing the
2024-01-01T23:00Z session at 2024-01-02T07:00Z with `duration = 480`)
does **not** increase `sleepCount`: the aggregate count stays at the
value 1 it received when the session was created. -/
theorem C2_counterexample :
    (morningWrites defaultConfig (runOps defaultConfig [.sleep 1 82800000]) 1
        111600000).1 = .closed 82800000 111600000 480 ∧
    (findUser (runOps defaultConfig [.sleep 1 82800000]) 1).map
      (fun u => u.sleepCount) = some 1 ∧
    (findUser (runOps defaultConfig [.sleep 1 82800000, .wake 1 111600000]) 1).map
      (fun u => u.sleepCount) = some 1 := by
  decide

/-- C2 (amended): for every successful sleep-end, the session row gets
`wakeTime = now` and the computed `duration`, and the user aggregate
gets `sleepTotal` increased by that duration and `lastSleepId` cleared —
via two separate updates — while `sleepCount` is left unchanged (it was
incremented at sleep-start, not at sleep-end). -/
theorem C2_theorem (cfg : Config) (db : DB) (uid : Nat) (now s w d : Int)
    (hres : (morningWrites cfg db uid now).1 = .closed s w d) :
    w = now ∧
    ∃ user, findUser db uid = some user ∧
    ∃ r ∈ db.records, r.uid = uid ∧ r.wakeTime = none ∧ r.sleepTime = s ∧
      d = calcSleepDuration s now ∧
      (morningWrites cfg db uid now).2 =
        [.setRecordClose r.id now d, .setUserClose uid (user.sleepTotal + d)] ∧
      findUser (applyWrites db (morningWrites cfg db uid now).2) uid =
        some { user with sleepTotal := user.sleepTotal + d, lastSleepId := none } ∧
      { r with wakeTime := some now, duration := some d } ∈
        (applyWrites db (morningWrites cfg db uid now).2).records :=
  morning_closed_effects hres

/-- C2 (witness): the spec scenario — session opened 2024-01-01T23:00Z,
closed 2024-01-02T07:00Z — closes with `durationMinutes = 480`. -/
theorem C2_witness :
    ((morningWrites defaultConfig (runOps defaultConfig [.sleep 1 82800000]) 1
        111600000).1 = .closed 82800000 111600000 480) ∧
    (111600000 = (111600000 : Int) ∧
    ∃ user, findUser (runOps defaultConfig [.sleep 1 82800000]) 1 = some user ∧
    ∃ r ∈ (runOps defaultConfig [.sleep 1 82800000]).records, r.uid = 1 ∧
      r.wakeTime = none ∧ r.sleepTime = 82800000 ∧
      (480 : Int) = calcSleepDuration 82800000 111600000 ∧
      (morningWrites defaultConfig (runOps defaultConfig [.sleep 1 82800000]) 1
          111600000).2 =
        [.setRecordClose r.id 111600000 480,
         .setUserClose 1 (user.sleepTotal + 480)] ∧
      findUser (applyWrites (runOps defaultConfig [.sleep 1 82800000])
          (morningWrites defaultConfig (runOps defaultConfig [.sleep 1 82800000]) 1
            111600000).2) 1 =
        some { user with sleepTotal := user.sleepTotal + 480, lastSleepId := none } ∧
      { r with wakeTime := some 111600000, duration := some 480 } ∈
        (applyWrites (runOps defaultConfig [.sleep 1 82800000])
          (morningWrites defaultConfig (runOps defaultConfig [.sleep 1 82800000]) 1
            111600000).2).records) :=
  ⟨by decide, C2_theorem defaultConfig (runOps defaultConfig [.sleep 1 82800000]) 1
    111600000 82800000 111600000 480 (by decide)⟩

/-- C3 (counterexample): after a single sleep-start the user has
`sleepCount = 1` but zero closed sessions, so `sleepCount` does not
equal the number of closed sessions — it counts sessions created. -/
theorem C3_counterexample :
    (findUser (runOps defaultConfig [.sleep 1 82800000]) 1).map
      (fun u => u.sleepCount) = some 1 ∧
    closedCount (runOps defaultConfig [.sleep 1 82800000]) 1 = 0 := by
  decide

/-- C3 (amended): after any sequence of sleep-start/sleep-end events,
every user aggregate satisfies `sleepTotal = ` sum of the recorded
durations of that user's closed sessions, and `sleepCount = ` the number
of that user's sessions, open and closed alike (the counter is bumped at
sleep-start). -/
theorem C3_theorem (cfg : Config) (ops : List Op) (u : UserRow)
    (hu : u ∈ (runOps cfg ops).users) :
    u.sleepTotal = closedSum (runOps cfg ops).records u.id ∧
    u.sleepCount = sessionCount (runOps cfg ops).records u.id :=
  ⟨(inv_runOps cfg ops).totalEq u hu, (inv_runOps cfg ops).countEq u hu⟩

/-- C3 (witness): the reconciliation identity at a concrete trace with
one closed session of 480 minutes. -/
theorem C3_witness :
    ((⟨1, 480, 1, none⟩ : UserRow) ∈
      (runOps defaultConfig [.sleep 1 82800000, .wake 1 111600000]).users) ∧
    ((⟨1, 480, 1, none⟩ : UserRow).sleepTotal =
      closedSum (runOps defaultConfig [.sleep 1 82800000, .wake 1 111600000]).records
        (⟨1, 480, 1, none⟩ : UserRow).id ∧
    (⟨1, 480, 1, none⟩ : UserRow).sleepCount =
      sessionCount (runOps defaultConfig [.sleep 1 82800000, .wake 1 111600000]).records
        (⟨1, 480, 1, none⟩ : UserRow).id) :=
  ⟨by decide, C3_theorem defaultConfig [.sleep 1 82800000, .wake 1 111600000]
    ⟨1, 480, 1, none⟩ (by decide)⟩

/-- C4 (counterexample): `calcSleepDuration` is **not** plain instant
subtraction and is not always non-negative: when the wake instant is
numerically smaller, the code adds 24 hours to it, and for a gap larger
than 24 hours the result is negative (here sleep at epoch+2 days, wake
at epoch: elapsed 2880 minutes, but the function returns −1440). -/
theorem C4_counterexample :
    calcSleepDuration 172800000 0 = -1440 ∧ calcSleepDuration 172800000 0 < 0 := by
  decide

/-- C4 (amended): when `wakeMs ≥ sleepMs`, `calcSleepDuration` is the
elapsed real time rounded to the nearest minute (halves up): it equals
`Math.round((wake − sleep)/60000)`, is non-negative, and its value in
milliseconds is within 30000 of the true difference.  When
`wakeMs < sleepMs` the code instead applies the clock-wraparound
formula `Math.round((wake + 24h − sleep)/60000)`, which can differ from
the elapsed time and can be negative. -/
theorem C4_theorem (sleepMs wakeMs : Int) :
    (sleepMs ≤ wakeMs →
      calcSleepDuration sleepMs wakeMs = jsRoundDiv (wakeMs - sleepMs) 60000 ∧
      0 ≤ calcSleepDuration sleepMs wakeMs ∧
      wakeMs - sleepMs - 30000 < 60000 * calcSleepDuration sleepMs wakeMs ∧
      60000 * calcSleepDuration sleepMs wakeMs ≤ wakeMs - sleepMs + 30000) ∧
    (wakeMs < sleepMs →
      calcSleepDuration sleepMs wakeMs = jsRoundDiv (wakeMs + dayMs - sleepMs) 60000) := by
  constructor
  · intro h
    have hge : wakeMs ≥ sleepMs := h
    have heq : calcSleepDuration sleepMs wakeMs = jsRoundDiv (wakeMs - sleepMs) 60000 := by
      unfold calcSleepDuration
      rw [if_pos hge]
    refine ⟨heq, ?_, ?_, ?_⟩
    · rw [heq]
      exact jsRoundDiv_nonneg _ _ (by omega) (by omega)
    · have := jsRoundDiv_bounds (wakeMs - sleepMs) 60000 (by omega)
      rw [heq]
      omega
    · have := jsRoundDiv_bounds (wakeMs - sleepMs) 60000 (by omega)
      rw [heq]
      omega
  · intro h
    unfold calcSleepDuration
    rw [if_neg (by omega)]

/-- C4 (witness): eight hours of sleep round-trips exactly. -/
theorem C4_witness :
    ((0 : Int) ≤ (28800000 : Int)) ∧
    (calcSleepDuration 0 28800000 = jsRoundDiv (28800000 - 0) 60000 ∧
      0 ≤ calcSleepDuration 0 28800000 ∧
      (28800000 : Int) - 0 - 30000 < 60000 * calcSleepDuration 0 28800000 ∧
      60000 * calcSleepDuration 0 28800000 ≤ (28800000 : Int) - 0 + 30000) :=
  ⟨by decide, (C4_theorem 0 28800000).1 (by decide)⟩

/-- C5 (confirmed): `isInSpan` implements exactly the windowing formula
of the spec — `start ≤ hour ≤ end` for a non-wrapping window, and
`hour ≥ start ∨ hour ≤ end` for a window that crosses midnight — for
both the morning and the evening window, it is total over all integer
hours, and the four boundary examples of the spec hold (evening window
(21,3), morning window (6,12)). -/
theorem C5_theorem :
    (∀ (hour : Int) (cfg : Config),
      (isInSpan hour cfg .morning = true ↔
        (if cfg.morningStart ≤ cfg.morningEnd
          then cfg.morningStart ≤ hour ∧ hour ≤ cfg.morningEnd
          else hour ≥ cfg.morningStart ∨ hour ≤ cfg.morningEnd)) ∧
      (isInSpan hour cfg .evening = true ↔
        (if cfg.eveningStart ≤ cfg.eveningEnd
          then cfg.eveningStart ≤ hour ∧ hour ≤ cfg.eveningEnd
          else hour ≥ cfg.eveningStart ∨ hour ≤ cfg.eveningEnd))) ∧
    isInSpan 21 ⟨6, 12, 21, 3⟩ .evening = true ∧
    isInSpan 3 ⟨6, 12, 21, 3⟩ .evening = true ∧
    isInSpan 4 ⟨6, 12, 21, 3⟩ .evening = false ∧
    isInSpan 12 ⟨6, 12, 21, 3⟩ .morning = true := by
  refine ⟨fun hour cfg => ⟨?_, ?_⟩, by decide, by decide, by decide, by decide⟩
  · by_cases hc : cfg.morningStart ≤ cfg.morningEnd <;>
      simp [isInSpan, hc]
  · by_cases hc : cfg.eveningStart ≤ cfg.eveningEnd <;>
      simp [isInSpan, hc]

/-- C6 (confirmed): a sleep-start by a user who already has an open
session opened on the same calendar day (after any event history)
returns the "repeat" result carrying that session's original
`sleepTime` — the open time is kept, not reset — the open same-day
session is unique, and the storage state is left completely unchanged
(no new row, no user update). -/
theorem C6_theorem (cfg : Config) (ops : List Op) (uid : Nat) (now : Int)
    (hwin : isInSpan (hourOf now) cfg .evening = true)
    (hopen : ∃ r ∈ (runOps cfg ops).records,
      r.uid = uid ∧ r.date = dayOf now ∧ r.wakeTime = none) :
    ∃ r0 ∈ (runOps cfg ops).records,
      r0.uid = uid ∧ r0.date = dayOf now ∧ r0.wakeTime = none ∧
      (∀ r' ∈ (runOps cfg ops).records,
        r'.uid = uid → r'.date = dayOf now → r'.wakeTime = none → r' = r0) ∧
      eveningWrites cfg (runOps cfg ops) uid now = (.repeatToday r0.sleepTime, []) ∧
      runOp cfg (runOps cfg ops) (.sleep uid now) = runOps cfg ops :=
  evening_repeat_effects (inv_runOps cfg ops) hwin hopen

/-- C6 (witness): goodnight at 23:00, second goodnight 23:30 the same
day — the repeat answer carries 23:00 and the state is unchanged. -/
theorem C6_witness :
    isInSpan (hourOf 84600000) defaultConfig .evening = true ∧
    (∃ r ∈ (runOps defaultConfig [.sleep 1 82800000]).records,
      r.uid = 1 ∧ r.date = dayOf 84600000 ∧ r.wakeTime = none) ∧
    (∃ r0 ∈ (runOps defaultConfig [.sleep 1 82800000]).records,
      r0.uid = 1 ∧ r0.date = dayOf 84600000 ∧ r0.wakeTime = none ∧
      (∀ r' ∈ (runOps defaultConfig [.sleep 1 82800000]).records,
        r'.uid = 1 → r'.date = dayOf 84600000 → r'.wakeTime = none → r' = r0) ∧
      eveningWrites defaultConfig (runOps defaultConfig [.sleep 1 82800000]) 1
        84600000 = (.repeatToday r0.sleepTime, []) ∧
      runOp defaultConfig (runOps defaultConfig [.sleep 1 82800000])
        (.sleep 1 84600000) = runOps defaultConfig [.sleep 1 82800000]) :=
  ⟨by decide, by decide,
    C6_theorem defaultConfig [.sleep 1 82800000] 1 84600000 (by decide) (by decide)⟩

/-- C7 (counterexample): the claim "sleep-end with `lastSleepId = null`
returns no-open-session and performs no mutation" fails: after two
cross-day sleep-starts and one sleep-end, `lastSleepId` is null, yet a
further sleep-end still finds the remaining open session (the middleware
queries open records directly and never consults `lastSleepId`), closes
it (1980 minutes) and mutates the state. -/
theorem C7_counterexample :
    (findUser (runOps defaultConfig
        [.sleep 1 82800000, .sleep 1 169200000, .wake 1 198000000]) 1).map
      (fun u => u.lastSleepId) = some none ∧
    (morningWrites defaultConfig
        (runOps defaultConfig [.sleep 1 82800000, .sleep 1 169200000, .wake 1 198000000])
        1 201600000).1 = .closed 82800000 201600000 1980 ∧
    runOp defaultConfig
        (runOps defaultConfig [.sleep 1 82800000, .sleep 1 169200000, .wake 1 198000000])
        (.wake 1 201600000) ≠
      runOps defaultConfig [.sleep 1 82800000, .sleep 1 169200000, .wake 1 198000000] := by
  decide

/-- C7 (amended): a sleep-end performs no mutation and answers with a
no-user / no-open-session result exactly when the user aggregate is
absent or the user has **no record with unset wake time**; the stored
`lastSleepId` pointer is never consulted by this path. -/
theorem C7_theorem (cfg : Config) (db : DB) (uid : Nat) (now : Int)
    (hwin : isInSpan (hourOf now) cfg .morning = true)
    (h : findUser db uid = none ∨ latestOpen db uid = none) :
    ((morningWrites cfg db uid now).1 = .noUser ∨
      (morningWrites cfg db uid now).1 = .noUnfinished) ∧
    (morningWrites cfg db uid now).2 = [] ∧
    applyWrites db (morningWrites cfg db uid now).2 = db ∧
    (latestOpen db uid = none ↔
      ∀ r ∈ db.records, r.uid = uid → r.wakeTime ≠ none) := by
  rcases morningWrites_spec cfg db uid now with ⟨hwin', _⟩ | ⟨_, hnone, heq⟩ |
    ⟨user, _, _, hlo, heq⟩ | ⟨user, r, _, hfu, hlo, heq⟩
  · rw [hwin] at hwin'; cases hwin'
  · rw [heq]
    exact ⟨Or.inl rfl, rfl, rfl, latestOpen_eq_none_iff db uid⟩
  · rw [heq]
    exact ⟨Or.inr rfl, rfl, rfl, latestOpen_eq_none_iff db uid⟩
  · exfalso
    rcases h with h | h
    · rw [hfu] at h; cases h
    · rw [hlo] at h; cases h

/-- C7 (witness): sleep-end against the empty store at 07:00. -/
theorem C7_witness :
    isInSpan (hourOf 25200000) defaultConfig .morning = true ∧
    (findUser emptyDB 1 = none ∨ latestOpen emptyDB 1 = none) ∧
    (((morningWrites defaultConfig emptyDB 1 25200000).1 = .noUser ∨
      (morningWrites defaultConfig emptyDB 1 25200000).1 = .noUnfinished) ∧
    (morningWrites defaultConfig emptyDB 1 25200000).2 = [] ∧
    applyWrites emptyDB (morningWrites defaultConfig emptyDB 1 25200000).2 = emptyDB ∧
    (latestOpen emptyDB 1 = none ↔
      ∀ r ∈ emptyDB.records, r.uid = 1 → r.wakeTime ≠ none)) :=
  ⟨by decide, by decide,
    C7_theorem defaultConfig emptyDB 1 25200000 (by decide) (by decide)⟩

/-- C10 (counterexample): the session-close path is **not** one atomic
unit: the morning middleware issues two separate updates, and between
them a state is visible in which the session is already closed with
`duration = 480` while the user aggregate still has `sleepTotal = 0`. -/
theorem C10_counterexample :
    ¬ atomicRun (runOps defaultConfig [.sleep 1 82800000])
      (morningWrites defaultConfig (runOps defaultConfig [.sleep 1 82800000]) 1
        111600000).2 ∧
    applyWrite (runOps defaultConfig [.sleep 1 82800000])
        (.setRecordClose 0 111600000 480) ∈
      writeStates (runOps defaultConfig [.sleep 1 82800000])
        (morningWrites defaultConfig (runOps defaultConfig [.sleep 1 82800000]) 1
          111600000).2 ∧
    (∃ r ∈ (applyWrite (runOps defaultConfig [.sleep 1 82800000])
        (.setRecordClose 0 111600000 480)).records, r.duration = some 480) ∧
    (findUser (applyWrite (runOps defaultConfig [.sleep 1 82800000])
        (.setRecordClose 0 111600000 480)) 1).map (fun u => u.sleepTotal) = some 0 := by
  decide

/-- C10 (amended): the evening path does bundle the session-row insert
and the user-aggregate update into one single write (the
`database.transact` call), atomic on its own; the morning path instead
issues the session close and the aggregate update as two separate
top-level writes. -/
theorem C10_theorem (cfg : Config) (db : DB) (uid : Nat) (now : Int) :
    (∀ n c, (eveningWrites cfg db uid now).1 = .created n c →
      ∃ pc, ((eveningWrites cfg db uid now).2 =
            [.eveningTransact uid now (dayOf now) pc] ∧
          atomicRun db (eveningWrites cfg db uid now).2) ∨
        (eveningWrites cfg db uid now).2 =
          [.createUser uid, .eveningTransact uid now (dayOf now) pc]) ∧
    (∀ s w d, (morningWrites cfg db uid now).1 = .closed s w d →
      ∃ rid tot, (morningWrites cfg db uid now).2 =
        [.setRecordClose rid now d, .setUserClose uid tot]) := by
  constructor
  · intro n c hres
    rcases eveningWrites_spec cfg db uid now with ⟨_, heq⟩ | ⟨r0, _, _, heq⟩ |
      ⟨_, _, heq⟩
    · rw [heq] at hres; cases hres
    · rw [heq] at hres; cases hres
    · have hws : (eveningWrites cfg db uid now).2 =
          (if (db.users.filter (fun u => u.id == uid)).isEmpty = true
            then [Write.createUser uid] else []) ++
          [Write.eveningTransact uid now (dayOf now)
            ((((db.users.filter (fun u => u.id == uid)).head?).map
              (fun u => u.sleepCount)).getD 0)] := by
        rw [heq]
      refine ⟨(((db.users.filter (fun u => u.id == uid)).head?).map
        (fun u => u.sleepCount)).getD 0, ?_⟩
      by_cases hemp : (db.users.filter (fun u => u.id == uid)).isEmpty = true
      · refine Or.inr ?_
        rw [hws, hemp]
        simp
      · have hemp' : (db.users.filter (fun u => u.id == uid)).isEmpty = false := by
          revert hemp
          cases (db.users.filter (fun u => u.id == uid)).isEmpty <;> simp
        refine Or.inl ⟨?_, ?_⟩
        · rw [hws, hemp']
          simp
        · rw [hws, hemp']
          exact atomicRun_single db _
  · intro s w d hres
    rcases morningWrites_spec cfg db uid now with ⟨_, heq⟩ | ⟨_, _, heq⟩ |
      ⟨user, _, _, _, heq⟩ | ⟨user, r, _, _, _, heq⟩
    · rw [heq] at hres; cases hres
    · rw [heq] at hres; cases hres
    · rw [heq] at hres; cases hres
    · rw [heq] at hres
      have hd : calcSleepDuration r.sleepTime now = d := by cases hres; rfl
      rw [heq, hd]
      exact ⟨r.id, user.sleepTotal + d, rfl⟩

/-- C10 (witness): both parts at concrete inputs — a first goodnight on
the empty store (create-user write followed by the single transaction),
and the 480-minute close issuing exactly two separate writes. -/
theorem C10_witness :
    ((eveningWrites defaultConfig emptyDB 1 82800000).1 = .created 82800000 1) ∧
    (∃ pc, ((eveningWrites defaultConfig emptyDB 1 82800000).2 =
          [.eveningTransact 1 82800000 (dayOf 82800000) pc] ∧
        atomicRun emptyDB (eveningWrites defaultConfig emptyDB 1 82800000).2) ∨
      (eveningWrites defaultConfig emptyDB 1 82800000).2 =
        [.createUser 1, .eveningTransact 1 82800000 (dayOf 82800000) pc]) ∧
    ((morningWrites defaultConfig (runOps defaultConfig [.sleep 1 82800000]) 1
        111600000).1 = .closed 82800000 111600000 480) ∧
    (∃ rid tot, (morningWrites defaultConfig
        (runOps defaultConfig [.sleep 1 82800000]) 1 111600000).2 =
      [.setRecordClose rid 111600000 480, .setUserClose 1 tot]) :=
  ⟨by decide,
    (C10_theorem defaultConfig emptyDB 1 82800000).1 82800000 1 (by decide),
    by decide,
    (C10_theorem defaultConfig (runOps defaultConfig [.sleep 1 82800000]) 1
      111600000).2 82800000 111600000 480 (by decide)⟩

/-- C8 (confirmed): a leaderboard query returns the empty marker exactly
when no closed session lies in range; otherwise the output is the
grouped per-user statistics — one entry per user occurring among the
in-range closed sessions, carrying the sum of that user's recorded
durations and the number of its sessions there — sorted descending by
summed duration with ties in ascending-uid order (deterministic), and
truncated to the requested `top`. -/
theorem C8_theorem (db : DB) (startDate endDate : Int) (top : Nat) :
    (rankQuery db startDate endDate top = none ↔
      inRangeClosed db startDate endDate = []) ∧
    ∀ out, rankQuery db startDate endDate top = some out →
      out = (sortByTotalDesc (buildStats (inRangeClosed db startDate endDate))).take top ∧
      (sortByTotalDesc (buildStats (inRangeClosed db startDate endDate))).Perm
        (buildStats (inRangeClosed db startDate endDate)) ∧
      out.Pairwise lexBefore ∧
      (∀ st ∈ buildStats (inRangeClosed db startDate endDate),
        st.total = closedSum (inRangeClosed db startDate endDate) st.uid ∧
        st.count = sessionCount (inRangeClosed db startDate endDate) st.uid) ∧
      (∀ uid, (∃ st ∈ buildStats (inRangeClosed db startDate endDate), st.uid = uid) ↔
        ∃ r ∈ inRangeClosed db startDate endDate, r.uid = uid) := by
  constructor
  · unfold rankQuery
    by_cases hemp : (inRangeClosed db startDate endDate).isEmpty = true
    · rw [if_pos hemp]
      simp [(isEmpty_iff_nil _).mp hemp]
    · rw [if_neg hemp]
      constructor
      · intro hc
        simp at hc
      · intro hnil
        exfalso
        apply hemp
        rw [hnil]
        rfl
  · intro out hout
    unfold rankQuery at hout
    by_cases hemp : (inRangeClosed db startDate endDate).isEmpty = true
    · rw [if_pos hemp] at hout
      simp at hout
    · rw [if_neg hemp] at hout
      have hout' : out =
          (sortByTotalDesc (buildStats (inRangeClosed db startDate endDate))).take top := by
        injection hout with hh
        exact hh.symm
      refine ⟨hout', stableSort_perm _ _, ?_, buildStats_entry _,
        fun uid => buildStats_presence _ uid⟩
      rw [hout']
      exact List.Pairwise.sublist (List.take_sublist top _)
        (sortByTotalDesc_pairwise _ (buildStats_sorted _))

/-- C8 (witness): the spec scenario — totals 600 (user 1, two sessions,
average 300 = 600/2) and 540 (user 2, one session, average 540 = 540/1)
— comes out ordered [600-user, 540-user]. -/
theorem C8_witness :
    rankQuery c8demo 0 10 5 = some [⟨1, 600, 2⟩, ⟨2, 540, 1⟩] ∧
    ([⟨1, 600, 2⟩, ⟨2, 540, 1⟩] : List RankStat) =
      (sortByTotalDesc (buildStats (inRangeClosed c8demo 0 10))).take 5 ∧
    ([⟨1, 600, 2⟩, ⟨2, 540, 1⟩] : List RankStat).Pairwise lexBefore ∧
    (600 : Int) = 300 * 2 ∧ (540 : Int) = 540 * 1 :=
  ⟨by decide,
    ((C8_theorem c8demo 0 10 5).2 [⟨1, 600, 2⟩, ⟨2, 540, 1⟩] (by decide)).1,
    ((C8_theorem c8demo 0 10 5).2 [⟨1, 600, 2⟩, ⟨2, 540, 1⟩] (by decide)).2.2.1,
    by decide, by decide⟩

/-- C9 (counterexample): "a closed session with `durationMinutes = 0`
counts toward the average" fails.  Under evening window (0,23) and
morning window (0,23) a session slept at epoch and woken 10 seconds
later is closed with `duration = some 0`; the in-range non-null count is
1, yet the aggregate line is omitted, because the code tests JavaScript
truthiness (`if (record.duration)`), under which 0 is falsy. -/
theorem C9_counterexample :
    (∃ r ∈ (runOps ⟨0, 23, 0, 23⟩ [.sleep 1 0, .wake 1 10000]).records,
      r.uid = 1 ∧ r.wakeTime ≠ none ∧ r.duration = some 0) ∧
    personalHistory (runOps ⟨0, 23, 0, 23⟩ [.sleep 1 0, .wake 1 10000]) 1 0 0 =
      some ⟨[⟨0, 1, 0, some 10000, some 0, 0⟩], none⟩ := by
  decide

/-- C9 (amended): the personal-history query returns the empty marker
(not an error) exactly when no session of the user lies in range;
otherwise it lists exactly the in-range sessions, and the aggregate line
is present iff some in-range session has a **truthy** duration (non-null
and non-zero), in which case it carries the count of those sessions and
`Math.round` of their mean duration — a closed session with
`durationMinutes = 0` is excluded like an unfinished one. -/
theorem C9_theorem (db : DB) (uid : Nat) (startDate endDate : Int) :
    (personalHistory db uid startDate endDate = none ↔
      inRangeFor db uid startDate endDate = []) ∧
    ∀ h, personalHistory db uid startDate endDate = some h →
      h.entries.Perm (inRangeFor db uid startDate endDate) ∧
      (h.aggregate = none ↔
        (inRangeFor db uid startDate endDate).filter
          (fun r => truthyDuration r.duration) = []) ∧
      ∀ avg cnt, h.aggregate = some (avg, cnt) →
        cnt = ((inRangeFor db uid startDate endDate).filter
          (fun r => truthyDuration r.duration)).length ∧
        avg = jsRoundDiv ((((inRangeFor db uid startDate endDate).filter
            (fun r => truthyDuration r.duration)).map
          (fun r => r.duration.getD 0)).sum) (cnt : Int) := by
  have hperm : (sortByDateDesc (inRangeFor db uid startDate endDate)).Perm
      (inRangeFor db uid startDate endDate) := stableSort_perm _ _
  have hfperm : ((sortByDateDesc (inRangeFor db uid startDate endDate)).filter
      (fun r => truthyDuration r.duration)).Perm
      ((inRangeFor db uid startDate endDate).filter
        (fun r => truthyDuration r.duration)) := hperm.filter _
  have hlen := hfperm.length_eq
  have hsum : (((sortByDateDesc (inRangeFor db uid startDate endDate)).filter
      (fun r => truthyDuration r.duration)).map (fun r => r.duration.getD 0)).sum =
      (((inRangeFor db uid startDate endDate).filter
        (fun r => truthyDuration r.duration)).map (fun r => r.duration.getD 0)).sum :=
    (hfperm.map _).sum_eq
  constructor
  · unfold personalHistory
    by_cases hemp : (sortByDateDesc (inRangeFor db uid startDate endDate)).isEmpty = true
    · rw [if_pos hemp]
      have hnil := (isEmpty_iff_nil _).mp hemp
      have : inRangeFor db uid startDate endDate = [] := by
        have hl : (inRangeFor db uid startDate endDate).length = 0 := by
          rw [← hperm.length_eq, hnil]
          rfl
        exact List.eq_nil_of_length_eq_zero hl
      simp [this]
    · rw [if_neg hemp]
      constructor
      · intro hc
        simp at hc
      · intro hnil
        exfalso
        apply hemp
        have : sortByDateDesc (inRangeFor db uid startDate endDate) = [] := by
          have hl : (sortByDateDesc (inRangeFor db uid startDate endDate)).length = 0 := by
            rw [hperm.length_eq, hnil]
            rfl
          exact List.eq_nil_of_length_eq_zero hl
        rw [this]
        rfl
  · intro h hout
    unfold personalHistory at hout
    by_cases hemp : (sortByDateDesc (inRangeFor db uid startDate endDate)).isEmpty = true
    · rw [if_pos hemp] at hout
      simp at hout
    · rw [if_neg hemp] at hout
      have hh : h = ⟨sortByDateDesc (inRangeFor db uid startDate endDate),
          if ((sortByDateDesc (inRangeFor db uid startDate endDate)).filter
              (fun r => truthyDuration r.duration)).length = 0 then none
          else some (jsRoundDiv (((sortByDateDesc
                (inRangeFor db uid startDate endDate)).filter
              (fun r => truthyDuration r.duration)).map
                (fun r => r.duration.getD 0)).sum
            (((sortByDateDesc (inRangeFor db uid startDate endDate)).filter
              (fun r => truthyDuration r.duration)).length : Int),
            ((sortByDateDesc (inRangeFor db uid startDate endDate)).filter
              (fun r => truthyDuration r.duration)).length)⟩ := by
        injection hout with hh
        exact hh.symm
      subst hh
      refine ⟨hperm, ?_, ?_⟩
      · show (if ((sortByDateDesc (inRangeFor db uid startDate endDate)).filter
            (fun r => truthyDuration r.duration)).length = 0 then none
          else some _) = none ↔ _
        by_cases hz : ((sortByDateDesc (inRangeFor db uid startDate endDate)).filter
            (fun r => truthyDuration r.duration)).length = 0
        · rw [if_pos hz]
          have : (inRangeFor db uid startDate endDate).filter
              (fun r => truthyDuration r.duration) = [] :=
            List.eq_nil_of_length_eq_zero (hlen ▸ hz)
          simp [this]
        · rw [if_neg hz]
          constructor
          · intro hc
            simp at hc
          · intro hnil
            exfalso
            apply hz
            rw [hlen, hnil]
            rfl
      · intro avg cnt hagg
        by_cases hz : ((sortByDateDesc (inRangeFor db uid startDate endDate)).filter
            (fun r => truthyDuration r.duration)).length = 0
        · rw [show (⟨sortByDateDesc (inRangeFor db uid startDate endDate), _⟩ :
              HistoryData).aggregate = _ from rfl, if_pos hz] at hagg
          simp at hagg
        · rw [show (⟨sortByDateDesc (inRangeFor db uid startDate endDate), _⟩ :
              HistoryData).aggregate = _ from rfl, if_neg hz] at hagg
          obtain ⟨havg, hcnt⟩ : jsRoundDiv (((sortByDateDesc
                (inRangeFor db uid startDate endDate)).filter
              (fun r => truthyDuration r.duration)).map
                (fun r => r.duration.getD 0)).sum
              (((sortByDateDesc (inRangeFor db uid startDate endDate)).filter
                (fun r => truthyDuration r.duration)).length : Int) = avg ∧
              ((sortByDateDesc (inRangeFor db uid startDate endDate)).filter
                (fun r => truthyDuration r.duration)).length = cnt := by
            injection hagg with hp
            exact ⟨congrArg Prod.fst hp, congrArg Prod.snd hp⟩
          constructor
          · rw [← hcnt, hlen]
          · rw [← havg, hsum, ← hcnt, hlen]

/-- C9 (witness): a user with one in-range closed 480-minute session
gets the aggregate line `(480, 1)`. -/
theorem C9_witness :
    personalHistory (runOps defaultConfig [.sleep 1 82800000, .wake 1 111600000])
        1 0 5 =
      some ⟨[⟨0, 1, 82800000, some 111600000, some 480, 0⟩], some (480, 1)⟩ ∧
    ((1 : Nat) = ((inRangeFor (runOps defaultConfig
          [.sleep 1 82800000, .wake 1 111600000]) 1 0 5).filter
        (fun r => truthyDuration r.duration)).length ∧
      (480 : Int) = jsRoundDiv ((((inRangeFor (runOps defaultConfig
            [.sleep 1 82800000, .wake 1 111600000]) 1 0 5).filter
          (fun r => truthyDuration r.duration)).map
        (fun r => r.duration.getD 0)).sum) ((1 : Nat) : Int)) :=
  ⟨by decide,
    ((C9_theorem (runOps defaultConfig [.sleep 1 82800000, .wake 1 111600000])
        1 0 5).2
      ⟨[⟨0, 1, 82800000, some 111600000, some 480, 0⟩], some (480, 1)⟩
      (by decide)).2.2 480 1 rfl⟩

end Sleep
